import Mathlib

/-
Verification development for the RRI query codec: the ordered field
container, the key-value wire encoding and parser, the DENIC handle
grammar, contact types, the domain dual-encoding helper and the typed
query constructors.

Go strings are embedded as lists of characters (`GoStr`).  The Go
standard-library helpers used by the code (strings.TrimSpace,
strings.Split/SplitN, strings.ToUpper/ToLower, strconv.Atoi, decimal
formatting) are embedded below at the ASCII level, which covers every
protocol token the code manipulates.  External collaborators that are
not part of the repository (the IDNA codec, the SHA-256 digest) are
passed as explicit function parameters, mirroring their fallible
signatures.
-/

deriving instance DecidableEq for Except

abbrev GoStr := List Char

/-- Embed a Lean string literal as a Go string value. -/
def gs (s : String) : GoStr := s.toList

/-- ASCII whitespace, as trimmed by strings.TrimSpace. -/
def isSpaceChar (c : Char) : Bool :=
  c = ' ' || c = '\t' || c = '\n' || c = Char.ofNat 11 || c = Char.ofNat 12 || c = '\r'

/-- Drop leading whitespace. -/
def trimLeft : GoStr → GoStr
  | [] => []
  | c :: rest => if isSpaceChar c then trimLeft rest else c :: rest

/-- Drop trailing whitespace. -/
def trimRight (s : GoStr) : GoStr := (trimLeft s.reverse).reverse

/-- Model of strings.TrimSpace. -/
def trimSpace (s : GoStr) : GoStr := trimLeft (trimRight s)

/-- ASCII upper-casing of one character, as strings.ToUpper acts on protocol tokens. -/
def asciiUpperChar (c : Char) : Char :=
  if 97 ≤ c.toNat ∧ c.toNat ≤ 122 then Char.ofNat (c.toNat - 32) else c

/-- ASCII lower-casing of one character. -/
def asciiLowerChar (c : Char) : Char :=
  if 65 ≤ c.toNat ∧ c.toNat ≤ 90 then Char.ofNat (c.toNat + 32) else c

/-- Model of strings.ToUpper. -/
def goToUpper (s : GoStr) : GoStr := s.map asciiUpperChar

/-- Model of strings.ToLower. -/
def goToLower (s : GoStr) : GoStr := s.map asciiLowerChar

/-- Model of strings.HasPrefix: does the first string start with the second. -/
def goStartsWith : GoStr → GoStr → Bool
  | _, [] => true
  | [], _ :: _ => false
  | c :: s, p :: ps => if c = p then goStartsWith s ps else false

/-- Split on every occurrence of a one-character separator (strings.Split). -/
def goSplitChar (sep : Char) : GoStr → List GoStr
  | [] => [[]]
  | c :: rest =>
    match goSplitChar sep rest with
    | [] => [[]]
    | g :: rest2 => if c = sep then [] :: g :: rest2 else (c :: g) :: rest2

/-- Split at the first occurrence of a separator, when present. -/
def goSplitFirst (sep : Char) : GoStr → Option (GoStr × GoStr)
  | [] => none
  | c :: rest =>
    if c = sep then some ([], rest)
    else
      match goSplitFirst sep rest with
      | none => none
      | some (a, b) => some (c :: a, b)

/-- Model of strings.SplitN with a one-character separator and n ≥ 1. -/
def goSplitN (sep : Char) : Nat → GoStr → List GoStr
  | 0, _ => []
  | 1, s => [s]
  | n + 2, s =>
    match goSplitFirst sep s with
    | none => [s]
    | some (a, b) => a :: goSplitN sep (n + 1) b

/-- The decimal digit character for a value below ten. -/
def digitChar (d : Nat) : Char := Char.ofNat (48 + d)

/-- Fuel-driven accumulator loop producing the decimal digits of a number,
most significant first, in front of an accumulator. -/
def natToStrCore : Nat → Nat → GoStr → GoStr
  | 0, _, acc => acc
  | fuel + 1, n, acc =>
    if n = 0 then acc else natToStrCore fuel (n / 10) (digitChar (n % 10) :: acc)

/-- Decimal formatting of a natural number (fmt %d on a nonnegative value). -/
def natToStr (n : Nat) : GoStr := if n = 0 then ['0'] else natToStrCore n n []

/-- Decimal formatting of an integer (fmt %d). -/
def intToStr (n : Int) : GoStr :=
  if n < 0 then '-' :: natToStr (-n).toNat else natToStr n.toNat

/-- Is the character a decimal digit. -/
def isDigitChar (c : Char) : Bool := 48 ≤ c.toNat && c.toNat ≤ 57

/-- Left-to-right accumulation of a decimal digit string. -/
def parseNatAux : GoStr → Nat → Option Nat
  | [], acc => some acc
  | c :: rest, acc =>
    if isDigitChar c then parseNatAux rest (acc * 10 + (c.toNat - 48)) else none

/-- Parse a nonempty all-digit string as a natural number. -/
def parseNatDigits (s : GoStr) : Option Nat :=
  match s with
  | [] => none
  | _ => parseNatAux s 0

/-- The numeric value obtained by appending the decimal digits of a number
after an already-accumulated value; mirrors the digit production of
natToStrCore on the parsing side. -/
def decShift : Nat → Nat → Nat → Nat
  | 0, _, a => a
  | fuel + 1, n, a => if n = 0 then a else decShift fuel (n / 10) a * 10 + n % 10

/-- Model of strconv.Atoi on a 64-bit platform: optional sign, nonempty digit
run, rejecting values outside the machine integer range. -/
def goAtoi (s : GoStr) : Except GoStr Int :=
  match s with
  | [] => Except.error (gs "invalid syntax")
  | c :: rest =>
    let neg : Bool := decide (c = '-')
    let digits : GoStr := if c = '-' ∨ c = '+' then rest else c :: rest
    match parseNatDigits digits with
    | none => Except.error (gs "invalid syntax")
    | some n =>
      if neg then
        if n ≤ 2 ^ 63 then Except.ok (-(n : Int)) else Except.error (gs "value out of range")
      else
        if n ≤ 2 ^ 63 - 1 then Except.ok (n : Int) else Except.error (gs "value out of range")

/-- Protocol version text (src/pkg/rri/query.go, type Version). -/
abbrev Version := GoStr

/-- Query action text (src/pkg/rri/query.go, type QueryAction). -/
abbrev QueryAction := GoStr

/-- Field name text (src/pkg/rri/query.go, type QueryFieldName). -/
abbrev QueryFieldName := GoStr

/-- Versions are stored verbatim (Version.Normalize). -/
def Version.Normalize (v : Version) : Version := v

/-- Actions canonicalize to upper case (QueryAction.Normalize). -/
def QueryAction.Normalize (a : QueryAction) : QueryAction := goToUpper a

/-- Field names canonicalize to lower case (QueryFieldName.Normalize). -/
def QueryFieldName.Normalize (n : QueryFieldName) : QueryFieldName := goToLower n

def QueryFieldNameEntity : QueryFieldName := gs "entity"
def QueryFieldNameVersion : QueryFieldName := gs "version"
def QueryFieldNameAction : QueryFieldName := gs "action"
def QueryFieldNameUser : QueryFieldName := gs "user"
def QueryFieldNamePassword : QueryFieldName := gs "password"
def QueryFieldNameDomainIDN : QueryFieldName := gs "domain"
def QueryFieldNameDomainACE : QueryFieldName := gs "domain-ace"
def QueryFieldNameHolder : QueryFieldName := gs "holder"
def QueryFieldNameGeneralRequest : QueryFieldName := gs "generalrequest"
def QueryFieldNameAbuseContact : QueryFieldName := gs "abusecontact"
def QueryFieldNameNameServer : QueryFieldName := gs "nserver"
def QueryFieldNameHandle : QueryFieldName := gs "handle"
def QueryFieldNameDisconnect : QueryFieldName := gs "disconnect"
def QueryFieldNameAuthInfoHash : QueryFieldName := gs "authinfohash"
def QueryFieldNameAuthInfoExpire : QueryFieldName := gs "authinfoexpire"
def QueryFieldNameAuthInfo : QueryFieldName := gs "authinfo"
def QueryFieldNameType : QueryFieldName := gs "type"
def QueryFieldNameName : QueryFieldName := gs "name"
def QueryFieldNameOrganisation : QueryFieldName := gs "organisation"
def QueryFieldNameAddress : QueryFieldName := gs "address"
def QueryFieldNamePostalCode : QueryFieldName := gs "postalcode"
def QueryFieldNameCity : QueryFieldName := gs "city"
def QueryFieldNameCountryCode : QueryFieldName := gs "countrycode"
def QueryFieldNameEMail : QueryFieldName := gs "email"
def QueryFieldNameMsgID : QueryFieldName := gs "msgid"
def QueryFieldNameMsgType : QueryFieldName := gs "msgtype"
def QueryFieldNamePhone : QueryFieldName := gs "phone"
def QueryFieldNameVerifiedClaim : QueryFieldName := gs "VerifiedClaim"
def QueryFieldNameVerificationResult : QueryFieldName := gs "VerificationResult"
def QueryFieldNameVerificationReference : QueryFieldName := gs "VerificationReference"
def QueryFieldNameVerificationTimestamp : QueryFieldName := gs "VerificationTimestamp"
def QueryFieldNameVerificationEvidence : QueryFieldName := gs "VerificationEvidence"
def QueryFieldNameVerificationMethod : QueryFieldName := gs "VerificationMethod"
def QueryFieldNameTrustFramework : QueryFieldName := gs "TrustFramework"

/-- The latest RRI version supported by the client. -/
def LatestVersion : Version := gs "5.0"

def ActionLogin : QueryAction := gs "LOGIN"
def ActionLogout : QueryAction := gs "LOGOUT"
def ActionCheck : QueryAction := gs "CHECK"
def ActionInfo : QueryAction := gs "INFO"
def ActionCreate : QueryAction := gs "CREATE"
def ActionUpdate : QueryAction := gs "UPDATE"
def ActionChangeHolder : QueryAction := gs "CHHOLDER"
def ActionDelete : QueryAction := gs "DELETE"
def ActionRestore : QueryAction := gs "RESTORE"
def ActionTransit : QueryAction := gs "TRANSIT"
def ActionCreateAuthInfo1 : QueryAction := gs "CREATE-AUTHINFO1"
def ActionCreateAuthInfo2 : QueryAction := gs "CREATE-AUTHINFO2"
def ActionChangeProvider : QueryAction := gs "CHPROV"
def ActionQueueRead : QueryAction := gs "QUEUE-READ"
def ActionQueueDelete : QueryAction := gs "QUEUE-DELETE"

/-- One entry of the ordered field container. -/
structure QueryField where
  Name : QueryFieldName
  Value : GoStr
deriving DecidableEq, Repr

/-- Modelled from the spec: the ordered, multi-valued field container is an
ordered sequence of field entries (the container type itself is declared
outside the provided sources; its contract is taken from the specification
of the Ordered Field Container). -/
abbrev QueryFieldList := List QueryField

/-- Modelled from the spec: a fresh, empty field container (NewQueryFieldList). -/
def NewQueryFieldList : QueryFieldList := []

/-- Modelled from the spec: Add appends one entry per value, in call order,
preserving any pre-existing entries; duplicate names are allowed. -/
def QueryFieldList.Add (l : QueryFieldList) (name : QueryFieldName) (values : List GoStr) :
    QueryFieldList :=
  l ++ values.map (fun v => { Name := name, Value := v })

/-- Modelled from the spec: Values returns all values for a name in original
insertion order, the name being compared in its canonical (lower-case) form;
an absent name yields the empty sequence. -/
def QueryFieldList.Values (l : QueryFieldList) (name : QueryFieldName) : List GoStr :=
  match l with
  | [] => []
  | f :: rest =>
    if QueryFieldName.Normalize f.Name = QueryFieldName.Normalize name then
      f.Value :: QueryFieldList.Values rest name
    else
      QueryFieldList.Values rest name

/-- Modelled from the spec: FirstValue returns the first value for a name or
the empty string if absent. -/
def QueryFieldList.FirstValue (l : QueryFieldList) (name : QueryFieldName) : GoStr :=
  match l.Values name with
  | [] => []
  | v :: _ => v

/-- Modelled from the spec: CopyTo appends all entries of the receiver onto
another container, preserving order, without mutating the receiver. -/
def QueryFieldList.CopyTo (l : QueryFieldList) (other : QueryFieldList) : QueryFieldList :=
  other ++ l

/-- A RRI request (src/pkg/rri/query.go, type Query). -/
structure Query where
  fields : QueryFieldList
deriving DecidableEq

/-- Query.Fields returns all fields. -/
def Query.Fields (q : Query) : QueryFieldList := q.fields

/-- Query.Field returns all values defined for a field name. -/
def Query.Field (q : Query) (fieldName : QueryFieldName) : List GoStr :=
  q.fields.Values fieldName

/-- Query.FirstField returns the first field value or an empty string. -/
def Query.FirstField (q : Query) (fieldName : QueryFieldName) : GoStr :=
  q.fields.FirstValue fieldName

/-- Query.Version re-derives the version from the field container. -/
def Query.Version (q : Query) : Version :=
  Version.Normalize (q.FirstField QueryFieldNameVersion)

/-- Query.Action re-derives the action from the field container. -/
def Query.Action (q : Query) : QueryAction :=
  QueryAction.Normalize (q.FirstField QueryFieldNameAction)

/-- One line of the key-value encoding: entity markers render as their bare
value, every other field as name, colon, space, value. -/
def renderField (f : QueryField) : GoStr :=
  if f.Name = QueryFieldNameEntity then f.Value
  else f.Name ++ ':' :: ' ' :: f.Value

/-- Query.EncodeKV: render each field as one line, joined by newlines with no
trailing newline (the builder only emits a separator once it is nonempty). -/
def Query.EncodeKV (q : Query) : GoStr :=
  q.fields.foldl
    (fun acc f => if 0 < acc.length then acc ++ '\n' :: renderField f else renderField f) []

/-- NewQuery: the single core constructor; always emits version then action
first, then appends the supplied fields (a missing list adds nothing). -/
def NewQuery (version : Version) (action : QueryAction) (fields : Option QueryFieldList) :
    Query :=
  let newFields := NewQueryFieldList
  let newFields := newFields.Add QueryFieldNameVersion [Version.Normalize version]
  let newFields := newFields.Add QueryFieldNameAction [QueryAction.Normalize action]
  match fields with
  | none => { fields := newFields }
  | some fs => { fields := fs.CopyTo newFields }

/-- The line-processing loop of ParseQueryKV: trim each line, skip blank
lines, split each remaining line at its first colon (a line without a colon
is a hard error) and accumulate the trimmed key and value. -/
def parseQueryLines : List GoStr → QueryFieldList → Except GoStr QueryFieldList
  | [], fields => Except.ok fields
  | line :: rest, fields =>
    let t := trimSpace line
    if t.length = 0 then parseQueryLines rest fields
    else
      match goSplitN ':' 2 t with
      | [k, v] => parseQueryLines rest (fields.Add (trimSpace k) [trimSpace v])
      | _ => Except.error (gs "query line must be key-value separated by colon")

/-- ParseQueryKV: split the input into lines, accumulate the fields, then
require exactly one version value and exactly one action value. -/
def ParseQueryKV (str : GoStr) : Except GoStr Query :=
  match parseQueryLines (goSplitChar '\n' str) NewQueryFieldList with
  | Except.error e => Except.error e
  | Except.ok fields =>
    let versionValues := fields.Values QueryFieldNameVersion
    if versionValues.length = 0 then Except.error (gs "version key is missing")
    else if 1 < versionValues.length then Except.error (gs "multiple version values")
    else
      let actionValues := fields.Values QueryFieldNameAction
      if actionValues.length = 0 then Except.error (gs "action key is missing")
      else if 1 < actionValues.length then Except.error (gs "multiple action values")
      else Except.ok { fields := fields }

/-- ParseQuery delegates to the key-value parser. -/
def ParseQuery (str : GoStr) : Except GoStr Query := ParseQueryKV str

/-- Contact type text (src/unnamed/part_000, type ContactType). -/
abbrev ContactType := GoStr

def ContactTypePerson : ContactType := gs "PERSON"
def ContactTypeOrganisation : ContactType := gs "ORG"
def ContactTypeRequest : ContactType := gs "REQUEST"

/-- Contact types canonicalize to upper case (ContactType.Normalize). -/
def ContactType.Normalize (t : ContactType) : ContactType := goToUpper t

/-- ParseContactType: case-insensitive, accepting exactly the two known
tokens and failing otherwise. -/
def ParseContactType (str : GoStr) : Except GoStr ContactType :=
  if goToUpper str = gs "PERSON" then Except.ok ContactTypePerson
  else if goToUpper str = gs "ORG" then Except.ok ContactTypeOrganisation
  else Except.error (gs "invalid contact type")

/-- A DENIC handle (src/unnamed/part_000, type DenicHandle). -/
structure DenicHandle where
  RegAccID : Int
  ContactCode : GoStr
deriving DecidableEq, Repr

/-- DenicHandle.IsEmpty: the zero-id, empty-code handle is the unset value. -/
def DenicHandle.IsEmpty (h : DenicHandle) : Bool :=
  decide (h.RegAccID = 0 ∧ h.ContactCode = [])

/-- DenicHandle.String: the empty handle formats to the empty string, any
other handle to the DENIC-id-CODE form with the code upper-cased. -/
def DenicHandle.String (h : DenicHandle) : GoStr :=
  if h.IsEmpty then []
  else gs "DENIC-" ++ intToStr h.RegAccID ++ '-' :: goToUpper h.ContactCode

/-- NewDenicHandle assembles a handle, upper-casing the contact code. -/
def NewDenicHandle (regAccID : Int) (contactCode : GoStr) : DenicHandle :=
  { RegAccID := regAccID, ContactCode := goToUpper contactCode }

/-- EmptyDenicHandle returns the unset handle. -/
def EmptyDenicHandle : DenicHandle := { RegAccID := 0, ContactCode := [] }

/-- ParseDenicHandle: empty input yields the empty handle; otherwise split on
the dash into at most three segments, require exactly three, a
case-insensitive DENIC prefix and a numeric account id. -/
def ParseDenicHandle (str : GoStr) : Except GoStr DenicHandle :=
  if str.length = 0 then Except.ok EmptyDenicHandle
  else
    match goSplitN '-' 3 str with
    | [p0, p1, p2] =>
      if goToUpper p0 ≠ gs "DENIC" then Except.error (gs "invalid handle")
      else
        match goAtoi p1 with
        | Except.error _ => Except.error (gs "invalid handle")
        | Except.ok regAccID => Except.ok (NewDenicHandle regAccID (goToUpper p2))
    | _ => Except.error (gs "invalid handle")

/-- Domain information (src/unnamed/part_000, type DomainData). -/
structure DomainData where
  HolderHandles : List DenicHandle
  GeneralRequestHandles : List DenicHandle
  AbuseContactHandles : List DenicHandle
  NameServers : List GoStr
deriving DecidableEq

/-- The inner loop of DomainData.PutToQueryFields: emit one field per
non-empty handle, silently skipping empty handles. -/
def putHandlesToQueryFields (fields : QueryFieldList) (fieldName : QueryFieldName)
    (handles : List DenicHandle) : QueryFieldList :=
  match handles with
  | [] => fields
  | h :: rest =>
    if h.IsEmpty then putHandlesToQueryFields fields fieldName rest
    else putHandlesToQueryFields (fields.Add fieldName [h.String]) fieldName rest

/-- DomainData.PutToQueryFields: holder handles, then general-request
handles, then abuse-contact handles, then name servers. -/
def DomainData.PutToQueryFields (domainData : DomainData) (fields : QueryFieldList) :
    QueryFieldList :=
  let fields := putHandlesToQueryFields fields QueryFieldNameHolder domainData.HolderHandles
  let fields :=
    putHandlesToQueryFields fields QueryFieldNameGeneralRequest domainData.GeneralRequestHandles
  let fields :=
    putHandlesToQueryFields fields QueryFieldNameAbuseContact domainData.AbuseContactHandles
  fields.Add QueryFieldNameNameServer domainData.NameServers

/-- First pass of splitLines: collapse a carriage-return-newline pair into a
bare newline. -/
def stripCRLF : GoStr → GoStr
  | [] => []
  | '\r' :: '\n' :: rest => '\n' :: stripCRLF rest
  | c :: rest => c :: stripCRLF rest

/-- splitLines: normalize line endings, then split on newlines. -/
def splitLines (str : GoStr) : List GoStr :=
  goSplitChar '\n' ((stripCRLF str).map (fun c => if c = '\r' then '\n' else c))

def QueryEntityVerificationInformation : GoStr := gs "VerificationInformation"

/-- Modelled from the spec: a verification-information sub-record (its
declaration is outside the provided sources); it carries the verification
attributes named by the field-name constants of the query module. -/
structure VerificationInformation where
  VerifiedClaim : GoStr
  VerificationResult : GoStr
  VerificationReference : GoStr
  VerificationTimestamp : GoStr
  VerificationEvidence : GoStr
  VerificationMethod : GoStr
  TrustFramework : GoStr
deriving DecidableEq

/-- Modelled from the spec: each verification-information sub-record
contributes its own entity marker (a bracketed tag rendered on its own line,
lower-cased) immediately followed by its fields. -/
def VerificationInformation.PutToQueryFields (vi : VerificationInformation)
    (fields : QueryFieldList) : QueryFieldList :=
  let fields :=
    fields.Add QueryFieldNameEntity
      ['[' :: goToLower QueryEntityVerificationInformation ++ [']']]
  let fields := fields.Add QueryFieldNameVerifiedClaim [vi.VerifiedClaim]
  let fields := fields.Add QueryFieldNameVerificationResult [vi.VerificationResult]
  let fields := fields.Add QueryFieldNameVerificationReference [vi.VerificationReference]
  let fields := fields.Add QueryFieldNameVerificationTimestamp [vi.VerificationTimestamp]
  let fields := fields.Add QueryFieldNameVerificationEvidence [vi.VerificationEvidence]
  let fields := fields.Add QueryFieldNameVerificationMethod [vi.VerificationMethod]
  fields.Add QueryFieldNameTrustFramework [vi.TrustFramework]

/-- Contact information (src/unnamed/part_000, type ContactData); the field
Typ embeds the Go field named Type, which is a reserved word here. -/
structure ContactData where
  Typ : ContactType
  Name : GoStr
  Organisation : GoStr
  Address : GoStr
  PostalCode : GoStr
  City : GoStr
  CountryCode : GoStr
  EMail : List GoStr
  Phone : GoStr
  VerificationInformation : List VerificationInformation
deriving DecidableEq

/-- ContactData.PutToQueryFields: type (normalized), name, organisation and
address split into physical lines, postal code, city, country code, email
addresses, phone, then each verification-information sub-record in turn. -/
def ContactData.PutToQueryFields (contactData : ContactData) (fields : QueryFieldList) :
    QueryFieldList :=
  let fields := fields.Add QueryFieldNameType [ContactType.Normalize contactData.Typ]
  let fields := fields.Add QueryFieldNameName [contactData.Name]
  let fields := fields.Add QueryFieldNameOrganisation (splitLines contactData.Organisation)
  let fields := fields.Add QueryFieldNameAddress (splitLines contactData.Address)
  let fields := fields.Add QueryFieldNamePostalCode [contactData.PostalCode]
  let fields := fields.Add QueryFieldNameCity [contactData.City]
  let fields := fields.Add QueryFieldNameCountryCode [contactData.CountryCode]
  let fields := fields.Add QueryFieldNameEMail contactData.EMail
  let fields := fields.Add QueryFieldNamePhone [contactData.Phone]
  contactData.VerificationInformation.foldl
    (fun fs vi => vi.PutToQueryFields fs) fields

/-- PutDomainToQueryFields: a domain already carrying the (case-insensitive)
ACE prefix is emitted as the ACE field, with its Unicode decoding added only
on success; any other domain is emitted as the IDN field, with its ASCII
encoding added only on success.  The IDNA codec is external and passed in. -/
def PutDomainToQueryFields (toUnicode toASCII : GoStr → Except GoStr GoStr)
    (fields : QueryFieldList) (domain : GoStr) : QueryFieldList :=
  if goStartsWith (goToLower domain) (gs "xn--") then
    let fields := fields.Add QueryFieldNameDomainACE [domain]
    match toUnicode domain with
    | Except.ok idn => fields.Add QueryFieldNameDomainIDN [idn]
    | Except.error _ => fields
  else
    let fields := fields.Add QueryFieldNameDomainIDN [domain]
    match toASCII domain with
    | Except.ok ace => fields.Add QueryFieldNameDomainACE [ace]
    | Except.error _ => fields

/-- NewLoginQuery returns a login query for the given credentials. -/
def NewLoginQuery (username password : GoStr) : Query :=
  let fields := NewQueryFieldList
  let fields := fields.Add QueryFieldNameUser [username]
  let fields := fields.Add QueryFieldNamePassword [password]
  NewQuery LatestVersion ActionLogin (some fields)

/-- NewLogoutQuery returns a logout query. -/
def NewLogoutQuery : Query := NewQuery LatestVersion ActionLogout none

/-- NewCreateContactQuery returns a query to create a contact. -/
def NewCreateContactQuery (handle : DenicHandle) (contactData : ContactData) : Query :=
  let fields := NewQueryFieldList
  let fields := fields.Add QueryFieldNameHandle [handle.String]
  let fields := contactData.PutToQueryFields fields
  NewQuery LatestVersion ActionCreate (some fields)

/-- NewCheckHandleQuery returns a check query for a handle. -/
def NewCheckHandleQuery (handle : DenicHandle) : Query :=
  let fields := NewQueryFieldList
  let fields := fields.Add QueryFieldNameHandle [handle.String]
  NewQuery LatestVersion ActionCheck (some fields)

/-- NewInfoHandleQuery returns an info query for a handle. -/
def NewInfoHandleQuery (handle : DenicHandle) : Query :=
  let fields := NewQueryFieldList
  let fields := fields.Add QueryFieldNameHandle [handle.String]
  NewQuery LatestVersion ActionInfo (some fields)

/-- NewCreateDomainQuery returns a query to create a domain. -/
def NewCreateDomainQuery (toUnicode toASCII : GoStr → Except GoStr GoStr)
    (domain : GoStr) (domainData : DomainData) : Query :=
  let fields := PutDomainToQueryFields toUnicode toASCII NewQueryFieldList domain
  let fields := domainData.PutToQueryFields fields
  NewQuery LatestVersion ActionCreate (some fields)

/-- NewCheckDomainQuery returns a check query. -/
def NewCheckDomainQuery (toUnicode toASCII : GoStr → Except GoStr GoStr)
    (domain : GoStr) : Query :=
  let fields := PutDomainToQueryFields toUnicode toASCII NewQueryFieldList domain
  NewQuery LatestVersion ActionCheck (some fields)

/-- NewInfoDomainQuery returns an info query. -/
def NewInfoDomainQuery (toUnicode toASCII : GoStr → Except GoStr GoStr)
    (domain : GoStr) : Query :=
  let fields := PutDomainToQueryFields toUnicode toASCII NewQueryFieldList domain
  NewQuery LatestVersion ActionInfo (some fields)

/-- NewUpdateDomainQuery returns a query to update a domain. -/
def NewUpdateDomainQuery (toUnicode toASCII : GoStr → Except GoStr GoStr)
    (domain : GoStr) (domainData : DomainData) : Query :=
  let fields := PutDomainToQueryFields toUnicode toASCII NewQueryFieldList domain
  let fields := domainData.PutToQueryFields fields
  NewQuery LatestVersion ActionUpdate (some fields)

/-- NewChangeHolderQuery returns a holder-change query. -/
def NewChangeHolderQuery (toUnicode toASCII : GoStr → Except GoStr GoStr)
    (domain : GoStr) (domainData : DomainData) : Query :=
  let fields := PutDomainToQueryFields toUnicode toASCII NewQueryFieldList domain
  let fields := domainData.PutToQueryFields fields
  NewQuery LatestVersion ActionChangeHolder (some fields)

/-- NewDeleteDomainQuery returns a delete query. -/
def NewDeleteDomainQuery (toUnicode toASCII : GoStr → Except GoStr GoStr)
    (domain : GoStr) : Query :=
  let fields := PutDomainToQueryFields toUnicode toASCII NewQueryFieldList domain
  NewQuery LatestVersion ActionDelete (some fields)

/-- NewRestoreDomainQuery returns a restore query. -/
def NewRestoreDomainQuery (toUnicode toASCII : GoStr → Except GoStr GoStr)
    (domain : GoStr) : Query :=
  let fields := PutDomainToQueryFields toUnicode toASCII NewQueryFieldList domain
  NewQuery LatestVersion ActionRestore (some fields)

/-- NewTransitDomainQuery returns a transit query with a disconnect flag. -/
def NewTransitDomainQuery (toUnicode toASCII : GoStr → Except GoStr GoStr)
    (domain : GoStr) (disconnect : Bool) : Query :=
  let fields := PutDomainToQueryFields toUnicode toASCII NewQueryFieldList domain
  let fields :=
    if disconnect then fields.Add QueryFieldNameDisconnect [gs "true"]
    else fields.Add QueryFieldNameDisconnect [gs "false"]
  NewQuery LatestVersion ActionTransit (some fields)

/-- A calendar date as carried by the external time value; the external Go
time type keeps month and day normalized into their calendar ranges. -/
structure GoDate where
  year : Nat
  month : Nat
  day : Nat
deriving DecidableEq

/-- Zero-pad a decimal rendering to a given width. -/
def padNat (width n : Nat) : GoStr :=
  List.replicate (width - (natToStr n).length) '0' ++ natToStr n

/-- Model of the external time formatting with layout 20060102: four-digit
zero-padded year, two-digit month and day. -/
def GoDate.format (d : GoDate) : GoStr :=
  padNat 4 d.year ++ padNat 2 d.month ++ padNat 2 d.day

/-- The lower-case hexadecimal digit character for a value below sixteen. -/
def hexDigitChar (d : Nat) : Char :=
  if d < 10 then Char.ofNat (48 + d) else Char.ofNat (87 + d)

/-- Lower-case hexadecimal rendering of a byte sequence (hex.EncodeToString). -/
def hexEncodeBytes : List (Fin 256) → GoStr
  | [] => []
  | b :: rest => hexDigitChar (b.val / 16) :: hexDigitChar (b.val % 16) :: hexEncodeBytes rest

/-- Is the character a lower-case hexadecimal digit. -/
def isLowerHexChar (c : Char) : Bool :=
  (48 ≤ c.toNat && c.toNat ≤ 57) || (97 ≤ c.toNat && c.toNat ≤ 102)

/-- computeHashSHA256: digest the string with the external SHA-256 function
and render the digest as lower-case hexadecimal text. -/
def computeHashSHA256 (sha : GoStr → List (Fin 256)) (str : GoStr) : GoStr :=
  hexEncodeBytes (sha str)

/-- NewCreateAuthInfo1Query: domain fields, the hashed authorization secret
and the expiry date formatted as an eight-digit day stamp. -/
def NewCreateAuthInfo1Query (toUnicode toASCII : GoStr → Except GoStr GoStr)
    (sha : GoStr → List (Fin 256)) (domain authInfo : GoStr) (expireDay : GoDate) : Query :=
  let fields := PutDomainToQueryFields toUnicode toASCII NewQueryFieldList domain
  let fields := fields.Add QueryFieldNameAuthInfoHash [computeHashSHA256 sha authInfo]
  let fields := fields.Add QueryFieldNameAuthInfoExpire [expireDay.format]
  NewQuery LatestVersion ActionCreateAuthInfo1 (some fields)

/-- NewCreateAuthInfo2Query returns a create AuthInfo2 query. -/
def NewCreateAuthInfo2Query (toUnicode toASCII : GoStr → Except GoStr GoStr)
    (domain : GoStr) : Query :=
  let fields := PutDomainToQueryFields toUnicode toASCII NewQueryFieldList domain
  NewQuery LatestVersion ActionCreateAuthInfo2 (some fields)

/-- NewChangeProviderQuery returns a provider-change query. -/
def NewChangeProviderQuery (toUnicode toASCII : GoStr → Except GoStr GoStr)
    (domain authInfo : GoStr) (domainData : DomainData) : Query :=
  let fields := PutDomainToQueryFields toUnicode toASCII NewQueryFieldList domain
  let fields := domainData.PutToQueryFields fields
  let fields := fields.Add QueryFieldNameAuthInfo [authInfo]
  NewQuery LatestVersion ActionChangeProvider (some fields)

/-- NewQueueReadQuery returns a queue-read query, filtered when a message
type is supplied. -/
def NewQueueReadQuery (msgType : GoStr) : Query :=
  let fields := NewQueryFieldList
  let fields :=
    if 0 < msgType.length then fields.Add QueryFieldNameMsgType [msgType] else fields
  NewQuery LatestVersion ActionQueueRead (some fields)

/-- NewQueueDeleteQuery returns a queue-delete query for a message id,
filtered when a message type is supplied. -/
def NewQueueDeleteQuery (msgID msgType : GoStr) : Query :=
  let fields := NewQueryFieldList
  let fields := fields.Add QueryFieldNameMsgID [msgID]
  let fields :=
    if 0 < msgType.length then fields.Add QueryFieldNameMsgType [msgType] else fields
  NewQuery LatestVersion ActionQueueDelete (some fields)

/-- The field accumulation described by the specification of ParseQueryKV,
stated from the claim text rather than from the parser: each non-blank line
is split at its first colon, the key being the trimmed text before it and
the value the trimmed text after it; the parser is compared against it. -/
def collectLines : List GoStr → QueryFieldList
  | [] => []
  | l :: rest =>
    let t := trimSpace l
    if t = [] then collectLines rest
    else
      match goSplitFirst ':' t with
      | none => collectLines rest
      | some (k, v) => { Name := trimSpace k, Value := trimSpace v } :: collectLines rest

/-- The fields accumulated from an input string per the claim text. -/
def claimFields (str : GoStr) : QueryFieldList := collectLines (goSplitChar '\n' str)

/-- The tail of a newline join: a leading newline before every line. -/
def joinTail : List GoStr → GoStr
  | [] => []
  | l :: rest => '\n' :: (l ++ joinTail rest)

/-- Join lines with newline separators and no trailing newline. -/
def joinNL : List GoStr → GoStr
  | [] => []
  | l :: rest => l ++ joinTail rest

/-- A field entry whose rendered line survives the parse loop unchanged: it
is not an entity marker, its name is colon-free, newline-free and
trim-stable, and its value is newline-free and trim-stable. -/
def cleanField (f : QueryField) : Prop :=
  f.Name ≠ QueryFieldNameEntity ∧ ':' ∉ f.Name ∧ '\n' ∉ f.Name ∧
    trimSpace f.Name = f.Name ∧ '\n' ∉ f.Value ∧ trimSpace f.Value = f.Value

instance (f : QueryField) : Decidable (cleanField f) := by
  unfold cleanField
  infer_instance

/-
Helper lemmas about the embedded string primitives.
-/

lemma trimLeft_cons_of_space (c : Char) (s : GoStr) (hc : isSpaceChar c = true) :
    trimLeft (c :: s) = trimLeft s := by
  simp [trimLeft, hc]

lemma trimLeft_cons_of_not_space (c : Char) (s : GoStr) (hc : isSpaceChar c = false) :
    trimLeft (c :: s) = c :: s := by
  simp [trimLeft, hc]

lemma trimLeft_length_le (s : GoStr) : (trimLeft s).length ≤ s.length := by
  induction s with
  | nil => simp [trimLeft]
  | cons c rest ih =>
    by_cases hc : isSpaceChar c = true
    · rw [trimLeft_cons_of_space c rest hc]
      exact Nat.le_trans ih (Nat.le_succ _)
    · rw [trimLeft_cons_of_not_space c rest (by simpa using hc)]

lemma trimLeft_eq_self_of_length (s : GoStr) (h : (trimLeft s).length = s.length) :
    trimLeft s = s := by
  induction s with
  | nil => rfl
  | cons c rest ih =>
    by_cases hc : isSpaceChar c = true
    · exfalso
      rw [trimLeft_cons_of_space c rest hc] at h
      have := trimLeft_length_le rest
      simp at h
      omega
    · rw [trimLeft_cons_of_not_space c rest (by simpa using hc)]

lemma trimRight_length_le (s : GoStr) : (trimRight s).length ≤ s.length := by
  have h := trimLeft_length_le s.reverse
  simpa [trimRight] using h

lemma trimRight_eq_self_of_length (s : GoStr) (h : (trimRight s).length = s.length) :
    trimRight s = s := by
  have h2 : (trimLeft s.reverse).length = s.reverse.length := by
    simpa [trimRight] using h
  have h3 := trimLeft_eq_self_of_length s.reverse h2
  simp [trimRight, h3]

lemma trimRight_of_trimSpace (s : GoStr) (h : trimSpace s = s) : trimRight s = s := by
  have h0 : trimLeft (trimRight s) = s := h
  have h1 : s.length ≤ (trimRight s).length := by
    calc s.length = (trimLeft (trimRight s)).length := by rw [h0]
    _ ≤ (trimRight s).length := trimLeft_length_le _
  exact trimRight_eq_self_of_length s (Nat.le_antisymm (trimRight_length_le s) h1)

lemma trimLeft_of_trimSpace (s : GoStr) (h : trimSpace s = s) : trimLeft s = s := by
  have h2 := trimRight_of_trimSpace s h
  have h0 : trimLeft (trimRight s) = s := h
  rw [h2] at h0
  exact h0

lemma head_not_space_of_trimLeft (c : Char) (s : GoStr) (h : trimLeft (c :: s) = c :: s) :
    isSpaceChar c = false := by
  by_contra hc
  have hc2 : isSpaceChar c = true := by
    cases h2 : isSpaceChar c
    · exact absurd h2 hc
    · rfl
  rw [trimLeft_cons_of_space c s hc2] at h
  have h3 := trimLeft_length_le s
  have h4 := congrArg List.length h
  simp at h4
  omega

lemma trimLeft_append_head (n rest : GoStr) (c : Char)
    (hn : trimLeft n = n) (hc : isSpaceChar c = false) :
    trimLeft (n ++ c :: rest) = n ++ c :: rest := by
  cases n with
  | nil => exact trimLeft_cons_of_not_space c rest hc
  | cons d tail =>
    have hd : isSpaceChar d = false := head_not_space_of_trimLeft d tail hn
    rw [List.cons_append, trimLeft_cons_of_not_space d (tail ++ c :: rest) hd]

lemma trimRight_append_last (a v : GoStr) (hv : trimRight v = v) (hne : v ≠ []) :
    trimRight (a ++ v) = a ++ v := by
  have hrev : trimLeft v.reverse = v.reverse := by
    have h := congrArg List.reverse hv
    simpa [trimRight] using h
  obtain ⟨c, rest, hcr⟩ : ∃ c rest, v.reverse = c :: rest := by
    cases h : v.reverse with
    | nil => exact absurd (by simpa using congrArg List.reverse h) hne
    | cons c rest => exact ⟨c, rest, rfl⟩
  have hc : isSpaceChar c = false := by
    rw [hcr] at hrev
    exact head_not_space_of_trimLeft c rest hrev
  show (trimLeft (a ++ v).reverse).reverse = a ++ v
  rw [List.reverse_append, hcr, List.cons_append,
    trimLeft_cons_of_not_space c (rest ++ a.reverse) hc]
  have h2 : rest.reverse ++ [c] = v := by
    have h3 := congrArg List.reverse hcr
    simpa using h3.symm
  simp only [List.reverse_cons, List.reverse_append, List.reverse_reverse]
  rw [List.append_assoc, h2]

lemma trimRight_append_colon_space (n : GoStr) :
    trimRight (n ++ [':', ' ']) = n ++ [':'] := by
  show (trimLeft (n ++ [':', ' ']).reverse).reverse = n ++ [':']
  have h1 : (n ++ [':', ' ']).reverse = ' ' :: ':' :: n.reverse := by simp
  rw [h1, trimLeft_cons_of_space ' ' (':' :: n.reverse) (by decide),
    trimLeft_cons_of_not_space ':' n.reverse (by decide)]
  simp

lemma mem_trimLeft_of_mem (c : Char) (s : GoStr) (h : c ∈ s) (hc : isSpaceChar c = false) :
    c ∈ trimLeft s := by
  induction s with
  | nil => simpa using h
  | cons d rest ih =>
    by_cases hd : isSpaceChar d = true
    · rw [trimLeft_cons_of_space d rest hd]
      rcases List.mem_cons.mp h with h1 | h1
      · subst h1; rw [hd] at hc; exact absurd hc (by simp)
      · exact ih h1
    · rw [trimLeft_cons_of_not_space d rest (by simpa using hd)]
      exact h

lemma mem_of_mem_trimLeft (c : Char) (s : GoStr) (h : c ∈ trimLeft s) : c ∈ s := by
  induction s with
  | nil => simpa [trimLeft] using h
  | cons d rest ih =>
    by_cases hd : isSpaceChar d = true
    · rw [trimLeft_cons_of_space d rest hd] at h
      exact List.mem_cons_of_mem d (ih h)
    · rwa [trimLeft_cons_of_not_space d rest (by simpa using hd)] at h

lemma mem_trimSpace_iff (c : Char) (s : GoStr) (hc : isSpaceChar c = false) :
    c ∈ trimSpace s ↔ c ∈ s := by
  constructor
  · intro h
    have h1 : c ∈ trimRight s := mem_of_mem_trimLeft c (trimRight s) h
    have h2 : c ∈ (trimLeft s.reverse).reverse := h1
    have h3 : c ∈ trimLeft s.reverse := by simpa using h2
    have h4 : c ∈ s.reverse := mem_of_mem_trimLeft c s.reverse h3
    simpa using h4
  · intro h
    have h1 : c ∈ s.reverse := by simpa using h
    have h2 : c ∈ trimLeft s.reverse := mem_trimLeft_of_mem c s.reverse h1 hc
    have h3 : c ∈ trimRight s := by
      show c ∈ (trimLeft s.reverse).reverse
      simpa using h2
    exact mem_trimLeft_of_mem c (trimRight s) h3 hc

lemma goSplitFirst_append (sep : Char) (a b : GoStr) (h : sep ∉ a) :
    goSplitFirst sep (a ++ sep :: b) = some (a, b) := by
  induction a with
  | nil => simp [goSplitFirst]
  | cons c rest ih =>
    have hc : c ≠ sep := fun hcs => h (by simp [hcs])
    have hrest : sep ∉ rest := fun hm => h (List.mem_cons_of_mem c hm)
    simp only [List.cons_append, goSplitFirst, List.append_eq, if_neg hc, ih hrest]

lemma goSplitFirst_of_not_mem (sep : Char) (s : GoStr) (h : sep ∉ s) :
    goSplitFirst sep s = none := by
  induction s with
  | nil => rfl
  | cons c rest ih =>
    have hc : c ≠ sep := fun hcs => h (by simp [hcs])
    have hrest : sep ∉ rest := fun hm => h (List.mem_cons_of_mem c hm)
    simp only [goSplitFirst, if_neg hc, ih hrest]

lemma goSplitFirst_of_mem (sep : Char) (s : GoStr) (h : sep ∈ s) :
    ∃ a b, goSplitFirst sep s = some (a, b) := by
  induction s with
  | nil => simp at h
  | cons c rest ih =>
    by_cases hc : c = sep
    · subst hc
      exact ⟨[], rest, by simp [goSplitFirst]⟩
    · have hm : sep ∈ rest := by
        rcases List.mem_cons.mp h with h1 | h1
        · exact absurd h1.symm hc
        · exact h1
      obtain ⟨a, b, hab⟩ := ih hm
      exact ⟨c :: a, b, by simp only [goSplitFirst, if_neg hc, hab]⟩

lemma goSplitFirst_decomp (sep : Char) (s a b : GoStr)
    (h : goSplitFirst sep s = some (a, b)) : s = a ++ sep :: b ∧ sep ∉ a := by
  induction s generalizing a b with
  | nil => simp [goSplitFirst] at h
  | cons c rest ih =>
    by_cases hc : c = sep
    · have e : goSplitFirst sep (c :: rest) = some ([], rest) := by
        simp [goSplitFirst, hc]
      rw [e] at h
      have h2 := Option.some.inj h
      injection h2 with ha hb
      subst ha
      subst hb
      simp [hc]
    · simp only [goSplitFirst, if_neg hc] at h
      cases h2 : goSplitFirst sep rest with
      | none => rw [h2] at h; simp at h
      | some p =>
        obtain ⟨a0, b0⟩ := p
        rw [h2] at h
        simp only [Option.some.injEq, Prod.mk.injEq] at h
        obtain ⟨h3, h4⟩ := h
        obtain ⟨h5, h6⟩ := ih a0 b0 h2
        subst h4
        constructor
        · rw [← h3]
          simp [h5]
        · rw [← h3]
          intro hm
          rcases List.mem_cons.mp hm with h7 | h7
          · exact hc h7.symm
          · exact h6 h7

lemma goSplitChar_ne_nil (sep : Char) (s : GoStr) : goSplitChar sep s ≠ [] := by
  cases s with
  | nil => simp [goSplitChar]
  | cons c rest =>
    simp only [goSplitChar]
    cases goSplitChar sep rest with
    | nil => simp
    | cons g rest2 =>
      by_cases hc : c = sep
      · simp [hc]
      · simp [hc]

lemma goSplitChar_of_not_mem (sep : Char) (s : GoStr) (h : sep ∉ s) :
    goSplitChar sep s = [s] := by
  induction s with
  | nil => rfl
  | cons c rest ih =>
    have hc : c ≠ sep := fun hcs => h (by simp [hcs])
    have hrest : sep ∉ rest := fun hm => h (List.mem_cons_of_mem c hm)
    simp only [goSplitChar, ih hrest, if_neg hc]

lemma goSplitChar_append (sep : Char) (a b : GoStr) (h : sep ∉ a) :
    goSplitChar sep (a ++ sep :: b) = a :: goSplitChar sep b := by
  induction a with
  | nil =>
    simp only [List.nil_append, goSplitChar]
    obtain ⟨g, rest2, hg⟩ : ∃ g rest2, goSplitChar sep b = g :: rest2 := by
      cases hgb : goSplitChar sep b with
      | nil => exact absurd hgb (goSplitChar_ne_nil sep b)
      | cons g rest2 => exact ⟨g, rest2, rfl⟩
    rw [hg]
    simp
  | cons c rest ih =>
    have hc : c ≠ sep := fun hcs => h (by simp [hcs])
    have hrest : sep ∉ rest := fun hm => h (List.mem_cons_of_mem c hm)
    simp only [List.cons_append, goSplitChar, List.append_eq, ih hrest, if_neg hc]

lemma goSplitN_two_some (sep : Char) (s k v : GoStr)
    (h : goSplitFirst sep s = some (k, v)) : goSplitN sep 2 s = [k, v] := by
  have e : goSplitN sep 2 s =
      match goSplitFirst sep s with
      | none => [s]
      | some (a, b) => a :: goSplitN sep 1 b := rfl
  rw [e, h]
  rfl

lemma goSplitN_two_none (sep : Char) (s : GoStr)
    (h : goSplitFirst sep s = none) : goSplitN sep 2 s = [s] := by
  have e : goSplitN sep 2 s =
      match goSplitFirst sep s with
      | none => [s]
      | some (a, b) => a :: goSplitN sep 1 b := rfl
  rw [e, h]

lemma goSplitN_three_some_some (sep : Char) (s a b c d : GoStr)
    (h1 : goSplitFirst sep s = some (a, b)) (h2 : goSplitFirst sep b = some (c, d)) :
    goSplitN sep 3 s = [a, c, d] := by
  have e : goSplitN sep 3 s =
      match goSplitFirst sep s with
      | none => [s]
      | some (x, y) => x :: goSplitN sep 2 y := rfl
  rw [e, h1]
  show a :: goSplitN sep 2 b = [a, c, d]
  rw [goSplitN_two_some sep b c d h2]

lemma goSplitN_length_le (sep : Char) (n : Nat) (s : GoStr) :
    (goSplitN sep n s).length ≤ n := by
  induction n using Nat.strong_induction_on generalizing s with
  | _ n ih =>
    match n with
    | 0 => simp [goSplitN]
    | 1 => simp [goSplitN]
    | m + 2 =>
      have e : goSplitN sep (m + 2) s =
          match goSplitFirst sep s with
          | none => [s]
          | some (x, y) => x :: goSplitN sep (m + 1) y := rfl
      rw [e]
      cases h : goSplitFirst sep s with
      | none => simp
      | some p =>
        obtain ⟨x, y⟩ := p
        have hy := ih (m + 1) (by omega) y
        simp only [List.length_cons]
        omega

/-
Helper lemmas about decimal rendering, digit parsing and case mapping.
-/

lemma digitChar_toNat (d : Nat) (h : d < 10) : (digitChar d).toNat = 48 + d := by
  interval_cases d <;> decide

lemma isDigitChar_digitChar (d : Nat) (h : d < 10) : isDigitChar (digitChar d) = true := by
  interval_cases d <;> decide

lemma natToStrCore_digits (fuel : Nat) :
    ∀ n acc, (∀ c ∈ acc, isDigitChar c = true) →
      ∀ c ∈ natToStrCore fuel n acc, isDigitChar c = true := by
  induction fuel with
  | zero => intro n acc hacc c hc; exact hacc c hc
  | succ f ih =>
    intro n acc hacc c hc
    by_cases hn : n = 0
    · rw [hn] at hc
      simp only [natToStrCore, if_pos rfl] at hc
      exact hacc c hc
    · simp only [natToStrCore, if_neg hn] at hc
      refine ih (n / 10) (digitChar (n % 10) :: acc) ?_ c hc
      intro d hd
      rcases List.mem_cons.mp hd with h1 | h1
      · subst h1
        exact isDigitChar_digitChar _ (Nat.mod_lt n (by omega))
      · exact hacc d h1

lemma natToStrCore_length_ge (fuel : Nat) :
    ∀ n acc, acc.length ≤ (natToStrCore fuel n acc).length := by
  induction fuel with
  | zero => intro n acc; simp [natToStrCore]
  | succ f ih =>
    intro n acc
    by_cases hn : n = 0
    · simp [natToStrCore, hn]
    · simp only [natToStrCore, if_neg hn]
      calc acc.length ≤ (digitChar (n % 10) :: acc).length := by simp
      _ ≤ _ := ih (n / 10) _

lemma natToStrCore_length_le (fuel : Nat) :
    ∀ n acc k, n ≤ fuel → n < 10 ^ k →
      (natToStrCore fuel n acc).length ≤ acc.length + k := by
  induction fuel with
  | zero =>
    intro n acc k hf _
    have : n = 0 := by omega
    subst this
    simp [natToStrCore]
  | succ f ih =>
    intro n acc k hf hk
    by_cases hn : n = 0
    · subst hn
      simp [natToStrCore]
    · simp only [natToStrCore, if_neg hn]
      have hk1 : 1 ≤ k := by
        by_contra hk0
        have : k = 0 := by omega
        subst this
        simp at hk
        omega
      have hdiv : n / 10 < 10 ^ (k - 1) := by
        have h10 : 0 < 10 := by norm_num
        rw [Nat.div_lt_iff_lt_mul h10]
        calc n < 10 ^ k := hk
        _ = 10 ^ (k - 1) * 10 := by
          rw [← Nat.pow_succ]
          congr 1
          omega
      have hfle : n / 10 ≤ f := by
        have := Nat.div_lt_self (Nat.pos_of_ne_zero hn) (by norm_num : (1:Nat) < 10)
        omega
      have := ih (n / 10) (digitChar (n % 10) :: acc) (k - 1) hfle hdiv
      simp only [List.length_cons] at this
      omega

lemma parseNatAux_natToStrCore (fuel : Nat) :
    ∀ n acc a, n ≤ fuel →
      parseNatAux (natToStrCore fuel n acc) a = parseNatAux acc (decShift fuel n a) := by
  induction fuel with
  | zero =>
    intro n acc a hf
    simp [natToStrCore, decShift]
  | succ f ih =>
    intro n acc a hf
    by_cases hn : n = 0
    · subst hn
      simp [natToStrCore, decShift]
    · simp only [natToStrCore, decShift, if_neg hn]
      have hfle : n / 10 ≤ f := by
        have := Nat.div_lt_self (Nat.pos_of_ne_zero hn) (by norm_num : (1:Nat) < 10)
        omega
      rw [ih (n / 10) _ a hfle]
      have hd : isDigitChar (digitChar (n % 10)) = true :=
        isDigitChar_digitChar _ (Nat.mod_lt n (by omega))
      simp only [parseNatAux, if_pos hd]
      rw [digitChar_toNat _ (Nat.mod_lt n (by omega))]
      congr 1
      omega

lemma decShift_zero (fuel : Nat) : ∀ n, n ≤ fuel → decShift fuel n 0 = n := by
  induction fuel with
  | zero =>
    intro n hf
    have : n = 0 := by omega
    subst this
    rfl
  | succ f ih =>
    intro n hf
    by_cases hn : n = 0
    · subst hn; rfl
    · simp only [decShift, if_neg hn]
      have hfle : n / 10 ≤ f := by
        have := Nat.div_lt_self (Nat.pos_of_ne_zero hn) (by norm_num : (1:Nat) < 10)
        omega
      rw [ih (n / 10) hfle]
      omega

lemma natToStr_digits (n : Nat) : ∀ c ∈ natToStr n, isDigitChar c = true := by
  intro c hc
  by_cases hn : n = 0
  · subst hn
    simp only [natToStr, if_pos rfl] at hc
    simp at hc
    subst hc
    decide
  · simp only [natToStr, if_neg hn] at hc
    exact natToStrCore_digits n n [] (by simp) c hc

lemma natToStr_ne_nil (n : Nat) : natToStr n ≠ [] := by
  by_cases hn : n = 0
  · subst hn; simp [natToStr]
  · simp only [natToStr, if_neg hn]
    intro habs
    have h1 := natToStrCore_length_ge n n [digitChar (n % 10)]
    have e : natToStrCore n n [] = natToStrCore (n - 1) (n / 10) [digitChar (n % 10)] := by
      obtain ⟨m, hm⟩ : ∃ m, n = m + 1 := ⟨n - 1, by omega⟩
      subst hm
      simp only [natToStrCore, if_neg hn, Nat.add_sub_cancel]
    rw [e] at habs
    have h2 := natToStrCore_length_ge (n - 1) (n / 10) [digitChar (n % 10)]
    rw [habs] at h2
    simp at h2

lemma parseNatDigits_natToStr (n : Nat) : parseNatDigits (natToStr n) = some n := by
  obtain ⟨c, rest, hcr⟩ : ∃ c rest, natToStr n = c :: rest := by
    cases h : natToStr n with
    | nil => exact absurd h (natToStr_ne_nil n)
    | cons c rest => exact ⟨c, rest, rfl⟩
  have e1 : parseNatDigits (natToStr n) = parseNatAux (natToStr n) 0 := by
    rw [hcr]; rfl
  rw [e1]
  by_cases hn : n = 0
  · subst hn; decide
  · simp only [natToStr, if_neg hn]
    rw [parseNatAux_natToStrCore n n [] 0 (Nat.le_refl n)]
    simp only [parseNatAux]
    rw [decShift_zero n n (Nat.le_refl n)]

lemma not_mem_natToStr_of_not_digit (n : Nat) (c : Char) (hc : isDigitChar c = false) :
    c ∉ natToStr n := by
  intro hm
  have := natToStr_digits n c hm
  rw [hc] at this
  exact absurd this (by simp)

lemma goAtoi_natToStr (n : Nat) (h2 : n ≤ 2 ^ 63 - 1) :
    goAtoi (natToStr n) = Except.ok (n : Int) := by
  obtain ⟨c, rest, hcr⟩ : ∃ c rest, natToStr n = c :: rest := by
    cases h : natToStr n with
    | nil => exact absurd h (natToStr_ne_nil n)
    | cons c rest => exact ⟨c, rest, rfl⟩
  have hcd : isDigitChar c = true := natToStr_digits n c (by rw [hcr]; simp)
  have hcm : ¬(c = '-' ∨ c = '+') := by
    intro hor
    rcases hor with h1 | h1 <;> (subst h1; revert hcd; decide)
  have hneg : decide (c = '-') = false := by
    have : c ≠ '-' := fun h1 => hcm (Or.inl h1)
    simpa using this
  have e : goAtoi (natToStr n) =
      match parseNatDigits (if c = '-' ∨ c = '+' then rest else c :: rest) with
      | none => Except.error (gs "invalid syntax")
      | some m =>
        if decide (c = '-') then
          if m ≤ 2 ^ 63 then Except.ok (-(m : Int)) else Except.error (gs "value out of range")
        else
          if m ≤ 2 ^ 63 - 1 then Except.ok (m : Int)
          else Except.error (gs "value out of range") := by
    rw [hcr]
    rfl
  rw [e, if_neg hcm, ← hcr, parseNatDigits_natToStr n]
  simp only [hneg, Bool.false_eq_true, if_false, if_pos h2]

lemma toNat_ofNat_interval (m : Nat) (h1 : 65 ≤ m) (h2 : m ≤ 90) :
    (Char.ofNat m).toNat = m := by
  interval_cases m <;> decide

lemma asciiUpperChar_idem (c : Char) : asciiUpperChar (asciiUpperChar c) = asciiUpperChar c := by
  by_cases h : 97 ≤ c.toNat ∧ c.toNat ≤ 122
  · have h2 : (asciiUpperChar c).toNat = c.toNat - 32 := by
      simp only [asciiUpperChar, if_pos h]
      exact toNat_ofNat_interval (c.toNat - 32) (by omega) (by omega)
    have h3 : ¬(97 ≤ (asciiUpperChar c).toNat ∧ (asciiUpperChar c).toNat ≤ 122) := by
      rw [h2]
      omega
    conv_lhs => rw [asciiUpperChar, if_neg h3]
  · have h0 : asciiUpperChar c = c := by
      simp only [asciiUpperChar, if_neg h]
    rw [h0, h0]

lemma goToUpper_idem (s : GoStr) : goToUpper (goToUpper s) = goToUpper s := by
  induction s with
  | nil => rfl
  | cons c rest ih =>
    simp only [goToUpper, List.map_cons] at ih ⊢
    rw [asciiUpperChar_idem]
    simp only [List.map_map] at ih ⊢
    exact congrArg (fun l => asciiUpperChar c :: l) (by
      have := ih
      simpa using this)

/-
Helper lemmas about the ordered field container.
-/

lemma Values_append (a b : QueryFieldList) (n : QueryFieldName) :
    QueryFieldList.Values (a ++ b) n =
      QueryFieldList.Values a n ++ QueryFieldList.Values b n := by
  induction a with
  | nil => rfl
  | cons f rest ih =>
    by_cases h : QueryFieldName.Normalize f.Name = QueryFieldName.Normalize n
    · simp only [List.cons_append, QueryFieldList.Values, List.append_eq, if_pos h, ih]
    · simp only [List.cons_append, QueryFieldList.Values, List.append_eq, if_neg h, ih]

lemma Values_cons_eq (f : QueryField) (rest : QueryFieldList) (n : QueryFieldName)
    (h : QueryFieldName.Normalize f.Name = QueryFieldName.Normalize n) :
    QueryFieldList.Values (f :: rest) n = f.Value :: QueryFieldList.Values rest n := by
  simp only [QueryFieldList.Values, if_pos h]

lemma Values_cons_ne (f : QueryField) (rest : QueryFieldList) (n : QueryFieldName)
    (h : QueryFieldName.Normalize f.Name ≠ QueryFieldName.Normalize n) :
    QueryFieldList.Values (f :: rest) n = QueryFieldList.Values rest n := by
  simp only [QueryFieldList.Values, if_neg h]

lemma Values_map_same (name n : QueryFieldName) (vs : List GoStr)
    (h : QueryFieldName.Normalize name = QueryFieldName.Normalize n) :
    QueryFieldList.Values (vs.map fun v => { Name := name, Value := v }) n = vs := by
  induction vs with
  | nil => rfl
  | cons v rest ih =>
    simp only [List.map_cons]
    rw [Values_cons_eq _ _ _ h, ih]

lemma Values_map_ne (name n : QueryFieldName) (vs : List GoStr)
    (h : QueryFieldName.Normalize name ≠ QueryFieldName.Normalize n) :
    QueryFieldList.Values (vs.map fun v => { Name := name, Value := v }) n = [] := by
  induction vs with
  | nil => rfl
  | cons v rest ih =>
    simp only [List.map_cons]
    rw [Values_cons_ne _ _ _ h, ih]

lemma Values_all_names (l : QueryFieldList) (n : QueryFieldName)
    (h : ∀ f ∈ l, QueryFieldName.Normalize f.Name ≠ QueryFieldName.Normalize n) :
    QueryFieldList.Values l n = [] := by
  induction l with
  | nil => rfl
  | cons f rest ih =>
    rw [Values_cons_ne f rest n (h f (by simp))]
    exact ih fun g hg => h g (List.mem_cons_of_mem f hg)

lemma Add_eq_append (l : QueryFieldList) (name : QueryFieldName) (vs : List GoStr) :
    QueryFieldList.Add l name vs = l ++ vs.map fun v => { Name := name, Value := v } := rfl

lemma NewQuery_fields (v : Version) (a : QueryAction) (fso : Option QueryFieldList) :
    (NewQuery v a fso).fields =
      { Name := QueryFieldNameVersion, Value := Version.Normalize v } ::
      { Name := QueryFieldNameAction, Value := QueryAction.Normalize a } :: fso.getD [] := by
  cases fso with
  | none => rfl
  | some fs =>
    simp [NewQuery, NewQueryFieldList, QueryFieldList.Add, QueryFieldList.CopyTo]

/-
Claim theorems.
-/

/-- C6: ParseContactType succeeds exactly on the strings whose upper-cased
form is PERSON or ORG, returning the corresponding canonical contact type,
and fails on every other string. -/
theorem C6_parse_contact_type (s : GoStr) :
    (goToUpper s = gs "PERSON" → ParseContactType s = Except.ok ContactTypePerson) ∧
    (goToUpper s = gs "ORG" → ParseContactType s = Except.ok ContactTypeOrganisation) ∧
    ((∃ t, ParseContactType s = Except.ok t) ↔
      (goToUpper s = gs "PERSON" ∨ goToUpper s = gs "ORG")) := by
  refine ⟨?_, ?_, ?_⟩
  · intro h
    simp [ParseContactType, h]
  · intro h
    simp only [ParseContactType, h]
    decide
  · constructor
    · rintro ⟨t, ht⟩
      by_cases h1 : goToUpper s = gs "PERSON"
      · exact Or.inl h1
      · by_cases h2 : goToUpper s = gs "ORG"
        · exact Or.inr h2
        · exfalso
          simp [ParseContactType, h1, h2] at ht
    · rintro (h1 | h1)
      · exact ⟨ContactTypePerson, by simp [ParseContactType, h1]⟩
      · exact ⟨ContactTypeOrganisation, by simp only [ParseContactType, h1]; decide⟩

/-- Witness for C6 at concrete inputs: mixed-case accepted tokens and a
rejected token. -/
theorem C6_parse_contact_type_witness :
    ParseContactType (gs "Person") = Except.ok ContactTypePerson ∧
    ParseContactType (gs "org") = Except.ok ContactTypeOrganisation ∧
    ¬∃ t, ParseContactType (gs "company") = Except.ok t := by
  refine ⟨(C6_parse_contact_type (gs "Person")).1 (by decide),
    (C6_parse_contact_type (gs "org")).2.1 (by decide), ?_⟩
  intro h
  have := ((C6_parse_contact_type (gs "company")).2.2).mp h
  revert this
  decide

lemma VI_put_append (vi : VerificationInformation) (fs : QueryFieldList) :
    vi.PutToQueryFields fs = fs ++ vi.PutToQueryFields [] := by
  simp [VerificationInformation.PutToQueryFields, Add_eq_append, List.append_assoc]

lemma foldl_vi_append (l : List VerificationInformation) :
    ∀ init : QueryFieldList,
      List.foldl (fun fs vi => vi.PutToQueryFields fs) init l =
        init ++ List.foldl (fun fs vi => vi.PutToQueryFields fs) [] l := by
  induction l with
  | nil => intro init; simp
  | cons vi rest ih =>
    intro init
    simp only [List.foldl_cons]
    rw [ih (vi.PutToQueryFields init), ih (vi.PutToQueryFields [])]
    rw [VI_put_append vi init]
    simp [List.append_assoc]

lemma contact_fields_head (cd : ContactData) :
    ∃ rest, cd.PutToQueryFields NewQueryFieldList =
      { Name := QueryFieldNameType, Value := ContactType.Normalize cd.Typ } :: rest := by
  simp only [ContactData.PutToQueryFields, NewQueryFieldList]
  rw [foldl_vi_append]
  simp only [Add_eq_append, List.map_cons, List.map_nil, List.nil_append,
    List.cons_append, List.append_assoc]
  exact ⟨_, rfl⟩

/-- C10: the contact type REQUEST is a defined canonical contact type that
Normalize fixes and that contact projection emits verbatim as the first type
field value, yet ParseContactType rejects REQUEST in every casing, so
parsing is not a left inverse of formatting over all defined contact types. -/
theorem C10_request_type_not_parseable :
    ContactType.Normalize ContactTypeRequest = ContactTypeRequest ∧
    (∃ e, ParseContactType ContactTypeRequest = Except.error e) ∧
    (∀ s : GoStr, goToUpper s = gs "REQUEST" → ∃ e, ParseContactType s = Except.error e) ∧
    (∀ cd : ContactData, cd.Typ = ContactTypeRequest →
      (cd.PutToQueryFields NewQueryFieldList).FirstValue QueryFieldNameType =
        ContactTypeRequest) := by
  refine ⟨by decide, ⟨gs "invalid contact type", by decide⟩, ?_, ?_⟩
  · intro s h
    refine ⟨gs "invalid contact type", ?_⟩
    simp only [ParseContactType, h]
    decide
  · intro cd h
    obtain ⟨rest, hrest⟩ := contact_fields_head cd
    show QueryFieldList.FirstValue (cd.PutToQueryFields NewQueryFieldList)
      QueryFieldNameType = ContactTypeRequest
    rw [QueryFieldList.FirstValue, hrest,
      Values_cons_eq { Name := QueryFieldNameType, Value := ContactType.Normalize cd.Typ }
        _ QueryFieldNameType rfl]
    show ContactType.Normalize cd.Typ = ContactTypeRequest
    rw [h]
    decide

/-- Witness for C10 at a concrete contact record carrying the REQUEST type. -/
theorem C10_request_type_not_parseable_witness :
    ∃ e, ParseContactType (gs "Request") = Except.error e := by
  exact C10_request_type_not_parseable.2.2.1 (gs "Request") (by decide)

/-- C3 as stated is false: the core constructor does not guarantee a unique
version entry when the supplied pre-built field list itself contains a
version-named field; at this concrete input the version name occurs twice. -/
theorem C3_newquery_counterexample :
    ((NewQuery (gs "5.0") (gs "LOGIN")
        (some [{ Name := QueryFieldNameVersion, Value := gs "9.9" }])).fields.Values
      QueryFieldNameVersion).length = 2 := by
  decide

lemma NewQuery_values_version (v : Version) (a : QueryAction) (fso : Option QueryFieldList)
    (h : ∀ f ∈ fso.getD [], QueryFieldName.Normalize f.Name ≠ QueryFieldNameVersion) :
    (NewQuery v a fso).fields.Values QueryFieldNameVersion = [Version.Normalize v] := by
  rw [NewQuery_fields,
    Values_cons_eq { Name := QueryFieldNameVersion, Value := Version.Normalize v }
      _ QueryFieldNameVersion rfl,
    Values_cons_ne { Name := QueryFieldNameAction, Value := QueryAction.Normalize a }
      _ QueryFieldNameVersion
      (show QueryFieldNameAction.Normalize ≠ QueryFieldNameVersion.Normalize by decide),
    Values_all_names _ _ ?_]
  intro f hfm
  intro habs
  apply h f hfm
  rw [habs]
  decide

lemma NewQuery_values_action (v : Version) (a : QueryAction) (fso : Option QueryFieldList)
    (h : ∀ f ∈ fso.getD [], QueryFieldName.Normalize f.Name ≠ QueryFieldNameAction) :
    (NewQuery v a fso).fields.Values QueryFieldNameAction = [QueryAction.Normalize a] := by
  rw [NewQuery_fields,
    Values_cons_ne { Name := QueryFieldNameVersion, Value := Version.Normalize v }
      _ QueryFieldNameAction
      (show QueryFieldNameVersion.Normalize ≠ QueryFieldNameAction.Normalize by decide),
    Values_cons_eq { Name := QueryFieldNameAction, Value := QueryAction.Normalize a }
      _ QueryFieldNameAction rfl,
    Values_all_names _ _ ?_]
  intro f hfm
  intro habs
  apply h f hfm
  rw [habs]
  decide

/-- C3 (amended): for every version, action and optional pre-built field
list, the constructed field list is the normalized version entry, then the
normalized action entry, then the supplied fields in order, and Version and
Action re-derive the declared values — all unconditionally; version and
action each occur exactly once provided the supplied field list carries
neither name (as is the case for every action-specific constructor). -/
theorem C3_newquery_amended (v : Version) (a : QueryAction) (fso : Option QueryFieldList) :
    (NewQuery v a fso).fields =
      { Name := QueryFieldNameVersion, Value := Version.Normalize v } ::
        { Name := QueryFieldNameAction, Value := QueryAction.Normalize a } :: fso.getD [] ∧
    (NewQuery v a fso).Version = Version.Normalize v ∧
    (NewQuery v a fso).Action = QueryAction.Normalize a ∧
    ((∀ f ∈ fso.getD [],
        QueryFieldName.Normalize f.Name ≠ QueryFieldNameVersion ∧
        QueryFieldName.Normalize f.Name ≠ QueryFieldNameAction) →
      ((NewQuery v a fso).fields.Values QueryFieldNameVersion).length = 1 ∧
      ((NewQuery v a fso).fields.Values QueryFieldNameAction).length = 1) := by
  have hf := NewQuery_fields v a fso
  refine ⟨hf, ?_, ?_, ?_⟩
  · show Version.Normalize ((NewQuery v a fso).fields.FirstValue QueryFieldNameVersion) =
      Version.Normalize v
    rw [QueryFieldList.FirstValue, hf,
      Values_cons_eq { Name := QueryFieldNameVersion, Value := Version.Normalize v }
        _ QueryFieldNameVersion rfl]
    rfl
  · show QueryAction.Normalize ((NewQuery v a fso).fields.FirstValue QueryFieldNameAction) =
      QueryAction.Normalize a
    rw [QueryFieldList.FirstValue, hf,
      Values_cons_ne { Name := QueryFieldNameVersion, Value := Version.Normalize v }
        _ QueryFieldNameAction
        (show QueryFieldNameVersion.Normalize ≠ QueryFieldNameAction.Normalize by decide),
      Values_cons_eq { Name := QueryFieldNameAction, Value := QueryAction.Normalize a }
        _ QueryFieldNameAction rfl]
    exact goToUpper_idem a
  · intro h
    have hV := NewQuery_values_version v a fso (fun f hm => (h f hm).1)
    have hA := NewQuery_values_action v a fso (fun f hm => (h f hm).2)
    rw [hV, hA]
    exact ⟨rfl, rfl⟩

/-- Witness for C3 at a concrete lower-case action and a user field,
discharging the no-version/action-names hypothesis of the exactly-once
part. -/
theorem C3_newquery_amended_witness :
    (NewQuery (gs "5.0") (gs "login")
        (some [{ Name := QueryFieldNameUser, Value := gs "alice" }])).Action = gs "LOGIN" ∧
    ((NewQuery (gs "5.0") (gs "login")
        (some [{ Name := QueryFieldNameUser, Value := gs "alice" }])).fields.Values
      QueryFieldNameVersion).length = 1 := by
  have h := C3_newquery_amended (gs "5.0") (gs "login")
    (some [{ Name := QueryFieldNameUser, Value := gs "alice" }])
  exact ⟨h.2.2.1, (h.2.2.2 (by decide)).1⟩

/-- C7: the domain dual-encoding helper runs exactly one branch per call,
appends its one or two fields to whatever was already present, never emits
two fields for the same slot, and tolerates a conversion failure silently by
omitting only the converted field. -/
theorem C7_domain_dual_encoding (toUnicode toASCII : GoStr → Except GoStr GoStr)
    (domain : GoStr) :
    (∀ init, PutDomainToQueryFields toUnicode toASCII init domain =
      init ++ PutDomainToQueryFields toUnicode toASCII [] domain) ∧
    1 ≤ (PutDomainToQueryFields toUnicode toASCII [] domain).length ∧
    (PutDomainToQueryFields toUnicode toASCII [] domain).length ≤ 2 ∧
    (if goStartsWith (goToLower domain) (gs "xn--") = true then
      (PutDomainToQueryFields toUnicode toASCII [] domain).Values QueryFieldNameDomainACE =
        [domain] ∧
      (PutDomainToQueryFields toUnicode toASCII [] domain).Values QueryFieldNameDomainIDN =
        (match toUnicode domain with
          | Except.ok idn => [idn]
          | Except.error _ => [])
    else
      (PutDomainToQueryFields toUnicode toASCII [] domain).Values QueryFieldNameDomainIDN =
        [domain] ∧
      (PutDomainToQueryFields toUnicode toASCII [] domain).Values QueryFieldNameDomainACE =
        (match toASCII domain with
          | Except.ok ace => [ace]
          | Except.error _ => [])) := by
  by_cases hpre : goStartsWith (goToLower domain) (gs "xn--") = true
  · cases hc : toUnicode domain with
    | ok idn =>
      have he : PutDomainToQueryFields toUnicode toASCII [] domain =
          [{ Name := QueryFieldNameDomainACE, Value := domain },
           { Name := QueryFieldNameDomainIDN, Value := idn }] := by
        simp [PutDomainToQueryFields, hpre, hc, Add_eq_append]
      refine ⟨?_, ?_, ?_, ?_⟩
      · intro init
        simp [PutDomainToQueryFields, hpre, hc, Add_eq_append, he]
      · rw [he]; simp
      · rw [he]; simp
      · rw [if_pos hpre, he]
        constructor
        · rw [Values_cons_eq _ _ _ rfl,
            Values_cons_ne { Name := QueryFieldNameDomainIDN, Value := idn } _
              QueryFieldNameDomainACE
              (show QueryFieldNameDomainIDN.Normalize ≠ QueryFieldNameDomainACE.Normalize
                by decide)]
          rfl
        · rw [Values_cons_ne { Name := QueryFieldNameDomainACE, Value := domain } _
              QueryFieldNameDomainIDN
              (show QueryFieldNameDomainACE.Normalize ≠ QueryFieldNameDomainIDN.Normalize
                by decide),
            Values_cons_eq _ _ _ rfl]
          rfl
    | error e =>
      have he : PutDomainToQueryFields toUnicode toASCII [] domain =
          [{ Name := QueryFieldNameDomainACE, Value := domain }] := by
        simp [PutDomainToQueryFields, hpre, hc, Add_eq_append]
      refine ⟨?_, ?_, ?_, ?_⟩
      · intro init
        simp [PutDomainToQueryFields, hpre, hc, Add_eq_append, he]
      · rw [he]; simp
      · rw [he]; simp
      · rw [if_pos hpre, he]
        constructor
        · rw [Values_cons_eq _ _ _ rfl]
          rfl
        · rw [Values_cons_ne { Name := QueryFieldNameDomainACE, Value := domain } _
              QueryFieldNameDomainIDN
              (show QueryFieldNameDomainACE.Normalize ≠ QueryFieldNameDomainIDN.Normalize
                by decide)]
          rfl
  · cases hc : toASCII domain with
    | ok ace =>
      have he : PutDomainToQueryFields toUnicode toASCII [] domain =
          [{ Name := QueryFieldNameDomainIDN, Value := domain },
           { Name := QueryFieldNameDomainACE, Value := ace }] := by
        simp [PutDomainToQueryFields, hpre, hc, Add_eq_append]
      refine ⟨?_, ?_, ?_, ?_⟩
      · intro init
        simp [PutDomainToQueryFields, hpre, hc, Add_eq_append, he]
      · rw [he]; simp
      · rw [he]; simp
      · rw [if_neg hpre, he]
        constructor
        · rw [Values_cons_eq _ _ _ rfl,
            Values_cons_ne { Name := QueryFieldNameDomainACE, Value := ace } _
              QueryFieldNameDomainIDN
              (show QueryFieldNameDomainACE.Normalize ≠ QueryFieldNameDomainIDN.Normalize
                by decide)]
          rfl
        · rw [Values_cons_ne { Name := QueryFieldNameDomainIDN, Value := domain } _
              QueryFieldNameDomainACE
              (show QueryFieldNameDomainIDN.Normalize ≠ QueryFieldNameDomainACE.Normalize
                by decide),
            Values_cons_eq _ _ _ rfl]
          rfl
    | error e =>
      have he : PutDomainToQueryFields toUnicode toASCII [] domain =
          [{ Name := QueryFieldNameDomainIDN, Value := domain }] := by
        simp [PutDomainToQueryFields, hpre, hc, Add_eq_append]
      refine ⟨?_, ?_, ?_, ?_⟩
      · intro init
        simp [PutDomainToQueryFields, hpre, hc, Add_eq_append, he]
      · rw [he]; simp
      · rw [he]; simp
      · rw [if_neg hpre, he]
        constructor
        · rw [Values_cons_eq _ _ _ rfl]
          rfl
        · rw [Values_cons_ne { Name := QueryFieldNameDomainIDN, Value := domain } _
              QueryFieldNameDomainACE
              (show QueryFieldNameDomainIDN.Normalize ≠ QueryFieldNameDomainACE.Normalize
                by decide)]
          rfl

lemma ParseDenicHandle_three (s p0 p1 p2 : GoStr) (hne : s ≠ [])
    (hsp : goSplitN '-' 3 s = [p0, p1, p2]) :
    ParseDenicHandle s =
      (if goToUpper p0 ≠ gs "DENIC" then Except.error (gs "invalid handle")
      else
        match goAtoi p1 with
        | Except.error _ => Except.error (gs "invalid handle")
        | Except.ok regAccID => Except.ok (NewDenicHandle regAccID (goToUpper p2))) := by
  have hlen : ¬(s.length = 0) := by simpa using hne
  simp only [ParseDenicHandle, if_neg hlen, hsp]

lemma ParseDenicHandle_short (s : GoStr) (hne : s ≠ [])
    (h : (goSplitN '-' 3 s).length < 3) :
    ParseDenicHandle s = Except.error (gs "invalid handle") := by
  have hlen : ¬(s.length = 0) := by simpa using hne
  simp only [ParseDenicHandle, if_neg hlen]
  rcases hsp : goSplitN '-' 3 s with _ | ⟨a, _ | ⟨b, _ | ⟨c, tl⟩⟩⟩
  · rfl
  · rfl
  · rfl
  · rw [hsp] at h
    simp at h
    omega

/-- C4: formatting a handle built from a positive account id (within the
machine integer range) and a nonempty contact code, then parsing it back,
recovers the handle; the empty handle formats to the empty string and the
empty string parses to the empty handle. -/
theorem C4_handle_roundtrip (id : Int) (code : GoStr)
    (h1 : 0 < id) (h2 : id ≤ 2 ^ 63 - 1) (h3 : code ≠ []) :
    ParseDenicHandle ((NewDenicHandle id code).String) =
      Except.ok (NewDenicHandle id code) ∧
    EmptyDenicHandle.String = [] ∧
    ParseDenicHandle [] = Except.ok EmptyDenicHandle := by
  refine ⟨?_, by decide, by decide⟩
  have hne0 : ({ RegAccID := id, ContactCode := goToUpper code } : DenicHandle).IsEmpty
      = false := by
    simp only [DenicHandle.IsEmpty, decide_eq_false_iff_not]
    intro habs
    omega
  have hstr : (NewDenicHandle id code).String =
      gs "DENIC" ++ '-' :: (natToStr id.toNat ++ '-' :: goToUpper code) := by
    simp only [NewDenicHandle, DenicHandle.String, hne0, Bool.false_eq_true, if_false]
    rw [goToUpper_idem]
    have hint : intToStr id = natToStr id.toNat := by
      simp only [intToStr, if_neg (by omega : ¬(id < 0))]
    rw [hint]
    have hD : gs "DENIC-" = gs "DENIC" ++ ['-'] := by decide
    rw [hD]
    simp [List.append_assoc]
  have hne2 : (NewDenicHandle id code).String ≠ [] := by
    have hcons : (NewDenicHandle id code).String =
        'D' :: (gs "ENIC" ++ '-' :: (natToStr id.toNat ++ '-' :: goToUpper code)) := by
      rw [hstr]
      rfl
    rw [hcons]
    exact List.cons_ne_nil _ _
  have hsp1 : goSplitFirst '-' ((NewDenicHandle id code).String) =
      some (gs "DENIC", natToStr id.toNat ++ '-' :: goToUpper code) := by
    rw [hstr]
    exact goSplitFirst_append '-' _ _ (by decide)
  have hsp2 : goSplitFirst '-' (natToStr id.toNat ++ '-' :: goToUpper code) =
      some (natToStr id.toNat, goToUpper code) :=
    goSplitFirst_append '-' _ _ (not_mem_natToStr_of_not_digit _ '-' (by decide))
  have hsp : goSplitN '-' 3 ((NewDenicHandle id code).String) =
      [gs "DENIC", natToStr id.toNat, goToUpper code] :=
    goSplitN_three_some_some '-' _ _ _ _ _ hsp1 hsp2
  rw [ParseDenicHandle_three _ _ _ _ hne2 hsp,
    if_neg (by decide : ¬(goToUpper (gs "DENIC") ≠ gs "DENIC")),
    goAtoi_natToStr id.toNat (by omega)]
  show Except.ok (NewDenicHandle (id.toNat : Int) (goToUpper (goToUpper code))) =
    Except.ok (NewDenicHandle id code)
  rw [Int.toNat_of_nonneg (by omega), goToUpper_idem]
  simp [NewDenicHandle, goToUpper_idem]

/-- Witness for C4 at a concrete handle. -/
theorem C4_handle_roundtrip_witness :
    ParseDenicHandle ((NewDenicHandle 1000006 (gs "some-code")).String) =
      Except.ok (NewDenicHandle 1000006 (gs "some-code")) :=
  (C4_handle_roundtrip 1000006 (gs "some-code") (by decide) (by decide) (by decide)).1

/-- C5: on nonempty input, ParseDenicHandle errors exactly when the dash
split into at most three segments yields fewer than three, or the first
segment is not case-insensitively DENIC, or the second does not parse as a
base-10 integer; on success the handle carries that integer as account id
and the upper-cased third segment as contact code. -/
theorem C5_parse_handle_cases (s : GoStr) (hne : s ≠ []) :
    ((∃ e, ParseDenicHandle s = Except.error e) ↔
      ((goSplitN '-' 3 s).length < 3 ∨
        goToUpper ((goSplitN '-' 3 s).getD 0 []) ≠ gs "DENIC" ∨
        ∀ n : Int, goAtoi ((goSplitN '-' 3 s).getD 1 []) ≠ Except.ok n)) ∧
    (∀ p0 p1 p2 (n : Int), goSplitN '-' 3 s = [p0, p1, p2] →
      goToUpper p0 = gs "DENIC" → goAtoi p1 = Except.ok n →
      ParseDenicHandle s = Except.ok { RegAccID := n, ContactCode := goToUpper p2 }) := by
  constructor
  · rcases hsp : goSplitN '-' 3 s with _ | ⟨p0, _ | ⟨p1, _ | ⟨p2, _ | ⟨p3, tl⟩⟩⟩⟩
    · rw [ParseDenicHandle_short s hne (by rw [hsp]; simp)]
      simp
    · rw [ParseDenicHandle_short s hne (by rw [hsp]; simp)]
      constructor
      · intro _
        left
        simp
      · intro _
        exact ⟨gs "invalid handle", rfl⟩
    · rw [ParseDenicHandle_short s hne (by rw [hsp]; simp)]
      constructor
      · intro _
        left
        simp
      · intro _
        exact ⟨gs "invalid handle", rfl⟩
    · rw [ParseDenicHandle_three s p0 p1 p2 hne hsp]
      by_cases hd : goToUpper p0 = gs "DENIC"
      · rw [if_neg (fun habs => habs hd)]
        cases ha : goAtoi p1 with
        | error e =>
          constructor
          · intro _
            right
            right
            intro n habs
            simp only [List.getD_cons_succ, List.getD_cons_zero] at habs
            rw [ha] at habs
            exact absurd habs (by simp)
          · intro _
            exact ⟨gs "invalid handle", rfl⟩
        | ok n =>
          constructor
          · rintro ⟨e, he⟩
            exact absurd he (by simp)
          · rintro (h1 | h1 | h1)
            · simp at h1
            · exact absurd hd (by simpa using h1)
            · exact absurd ha (by simpa using h1 n)
      · rw [if_pos hd]
        constructor
        · intro _
          right
          left
          simpa using hd
        · intro _
          exact ⟨gs "invalid handle", rfl⟩
    · exfalso
      have := goSplitN_length_le '-' 3 s
      rw [hsp] at this
      simp only [List.length_cons] at this
      omega
  · intro p0 p1 p2 n hsp hd ha
    rw [ParseDenicHandle_three s p0 p1 p2 hne hsp,
      if_neg (fun habs => habs hd), ha]
    show Except.ok (NewDenicHandle n (goToUpper p2)) =
      Except.ok { RegAccID := n, ContactCode := goToUpper p2 }
    simp [NewDenicHandle, goToUpper_idem]

/-- Witness for C5: a malformed handle text errors and a good one parses. -/
theorem C5_parse_handle_cases_witness :
    (∃ e, ParseDenicHandle (gs "garbage") = Except.error e) ∧
    ParseDenicHandle (gs "denic-7-x-y") =
      Except.ok { RegAccID := 7, ContactCode := gs "X-Y" } := by
  constructor
  · exact (C5_parse_handle_cases (gs "garbage") (by decide)).1.mpr (Or.inl (by decide))
  · exact (C5_parse_handle_cases (gs "denic-7-x-y") (by decide)).2
      (gs "denic") (gs "7") (gs "x-y") 7 (by decide) (by decide) (by decide)

lemma Values_mapf_same {α : Type} (g : α → GoStr) (name n : QueryFieldName) (xs : List α)
    (h : QueryFieldName.Normalize name = QueryFieldName.Normalize n) :
    QueryFieldList.Values (xs.map fun x => { Name := name, Value := g x }) n = xs.map g := by
  induction xs with
  | nil => rfl
  | cons x rest ih =>
    simp only [List.map_cons]
    rw [Values_cons_eq _ _ _ h, ih]

lemma Values_mapf_ne {α : Type} (g : α → GoStr) (name n : QueryFieldName) (xs : List α)
    (h : QueryFieldName.Normalize name ≠ QueryFieldName.Normalize n) :
    QueryFieldList.Values (xs.map fun x => { Name := name, Value := g x }) n = [] := by
  induction xs with
  | nil => rfl
  | cons x rest ih =>
    simp only [List.map_cons]
    rw [Values_cons_ne _ _ _ h, ih]

lemma putHandles_append (fields : QueryFieldList) (name : QueryFieldName)
    (handles : List DenicHandle) (h : ∀ hd ∈ handles, hd.IsEmpty = false) :
    putHandlesToQueryFields fields name handles =
      fields ++ handles.map (fun hd => { Name := name, Value := hd.String }) := by
  induction handles generalizing fields with
  | nil => simp [putHandlesToQueryFields]
  | cons hd tl ih =>
    have hhd : hd.IsEmpty = false := h hd (by simp)
    have htl : ∀ x ∈ tl, x.IsEmpty = false := fun x hx => h x (List.mem_cons_of_mem hd hx)
    simp only [putHandlesToQueryFields, hhd, Bool.false_eq_true, if_false]
    rw [ih _ htl]
    simp [Add_eq_append, List.append_assoc]

/-- C8: projecting a domain record with no empty handles into a fresh
container emits holder handles, then general-request handles, then
abuse-contact handles, then name servers, in original order, and each of the
four lookups reads back exactly the projected values. -/
theorem C8_domain_projection (d : DomainData)
    (h1 : ∀ hd ∈ d.HolderHandles, hd.IsEmpty = false)
    (h2 : ∀ hd ∈ d.GeneralRequestHandles, hd.IsEmpty = false)
    (h3 : ∀ hd ∈ d.AbuseContactHandles, hd.IsEmpty = false)
    (h4 : d.NameServers ≠ []) :
    d.PutToQueryFields NewQueryFieldList =
      d.HolderHandles.map
          (fun hd => { Name := QueryFieldNameHolder, Value := hd.String }) ++
        d.GeneralRequestHandles.map
          (fun hd => { Name := QueryFieldNameGeneralRequest, Value := hd.String }) ++
        d.AbuseContactHandles.map
          (fun hd => { Name := QueryFieldNameAbuseContact, Value := hd.String }) ++
        d.NameServers.map
          (fun v => { Name := QueryFieldNameNameServer, Value := v }) ∧
    (d.PutToQueryFields NewQueryFieldList).Values QueryFieldNameHolder =
      d.HolderHandles.map DenicHandle.String ∧
    (d.PutToQueryFields NewQueryFieldList).Values QueryFieldNameGeneralRequest =
      d.GeneralRequestHandles.map DenicHandle.String ∧
    (d.PutToQueryFields NewQueryFieldList).Values QueryFieldNameAbuseContact =
      d.AbuseContactHandles.map DenicHandle.String ∧
    (d.PutToQueryFields NewQueryFieldList).Values QueryFieldNameNameServer =
      d.NameServers := by
  have he : d.PutToQueryFields NewQueryFieldList =
      d.HolderHandles.map
          (fun hd => { Name := QueryFieldNameHolder, Value := hd.String }) ++
        d.GeneralRequestHandles.map
          (fun hd => { Name := QueryFieldNameGeneralRequest, Value := hd.String }) ++
        d.AbuseContactHandles.map
          (fun hd => { Name := QueryFieldNameAbuseContact, Value := hd.String }) ++
        d.NameServers.map
          (fun v => { Name := QueryFieldNameNameServer, Value := v }) := by
    simp only [DomainData.PutToQueryFields, NewQueryFieldList]
    rw [putHandles_append _ _ _ h1, putHandles_append _ _ _ h2, putHandles_append _ _ _ h3]
    simp only [Add_eq_append, List.nil_append]
  refine ⟨he, ?_, ?_, ?_, ?_⟩
  · rw [he, Values_append, Values_append, Values_append,
      Values_mapf_same DenicHandle.String _ _ _ rfl,
      Values_mapf_ne DenicHandle.String QueryFieldNameGeneralRequest QueryFieldNameHolder _
        (by decide),
      Values_mapf_ne DenicHandle.String QueryFieldNameAbuseContact QueryFieldNameHolder _
        (by decide),
      Values_map_ne QueryFieldNameNameServer QueryFieldNameHolder _ (by decide)]
    simp
  · rw [he, Values_append, Values_append, Values_append,
      Values_mapf_ne DenicHandle.String QueryFieldNameHolder QueryFieldNameGeneralRequest _
        (by decide),
      Values_mapf_same DenicHandle.String _ _ _ rfl,
      Values_mapf_ne DenicHandle.String QueryFieldNameAbuseContact QueryFieldNameGeneralRequest
        _ (by decide),
      Values_map_ne QueryFieldNameNameServer QueryFieldNameGeneralRequest _ (by decide)]
    simp
  · rw [he, Values_append, Values_append, Values_append,
      Values_mapf_ne DenicHandle.String QueryFieldNameHolder QueryFieldNameAbuseContact _
        (by decide),
      Values_mapf_ne DenicHandle.String QueryFieldNameGeneralRequest QueryFieldNameAbuseContact
        _ (by decide),
      Values_mapf_same DenicHandle.String _ _ _ rfl,
      Values_map_ne QueryFieldNameNameServer QueryFieldNameAbuseContact _ (by decide)]
    simp
  · rw [he, Values_append, Values_append, Values_append,
      Values_mapf_ne DenicHandle.String QueryFieldNameHolder QueryFieldNameNameServer _
        (by decide),
      Values_mapf_ne DenicHandle.String QueryFieldNameGeneralRequest QueryFieldNameNameServer _
        (by decide),
      Values_mapf_ne DenicHandle.String QueryFieldNameAbuseContact QueryFieldNameNameServer _
        (by decide),
      Values_map_same QueryFieldNameNameServer QueryFieldNameNameServer _ rfl]
    simp

/-- Witness for C8 at a concrete domain record. -/
theorem C8_domain_projection_witness :
    (DomainData.PutToQueryFields
        { HolderHandles := [{ RegAccID := 1, ContactCode := gs "H" }],
          GeneralRequestHandles := [{ RegAccID := 2, ContactCode := gs "G" }],
          AbuseContactHandles := [{ RegAccID := 3, ContactCode := gs "A" }],
          NameServers := [gs "ns1.example.de", gs "ns2.example.de"] }
        NewQueryFieldList).Values QueryFieldNameNameServer =
      [gs "ns1.example.de", gs "ns2.example.de"] := by
  exact (C8_domain_projection _ (by decide) (by decide) (by decide) (by decide)).2.2.2.2

lemma hexDigitChar_isLowerHex (d : Nat) (h : d < 16) :
    isLowerHexChar (hexDigitChar d) = true := by
  interval_cases d <;> decide

lemma hexEncodeBytes_length (bs : List (Fin 256)) :
    (hexEncodeBytes bs).length = 2 * bs.length := by
  induction bs with
  | nil => rfl
  | cons b rest ih =>
    simp only [hexEncodeBytes, List.length_cons, ih]
    omega

lemma hexEncodeBytes_chars (bs : List (Fin 256)) :
    ∀ c ∈ hexEncodeBytes bs, isLowerHexChar c = true := by
  induction bs with
  | nil => intro c hc; simp [hexEncodeBytes] at hc
  | cons b rest ih =>
    intro c hc
    have hdiv : b.val / 16 < 16 := by
      have := b.isLt
      omega
    have hmod : b.val % 16 < 16 := Nat.mod_lt _ (by norm_num)
    simp only [hexEncodeBytes, List.mem_cons] at hc
    rcases hc with h1 | h1 | h1
    · subst h1; exact hexDigitChar_isLowerHex _ hdiv
    · subst h1; exact hexDigitChar_isLowerHex _ hmod
    · exact ih c h1

lemma natToStr_length_le (n k : Nat) (hk : 1 ≤ k) (h : n < 10 ^ k) :
    (natToStr n).length ≤ k := by
  by_cases hn : n = 0
  · subst hn
    simp only [natToStr, if_pos rfl]
    simpa using hk
  · simp only [natToStr, if_neg hn]
    have := natToStrCore_length_le n n [] k (Nat.le_refl n) h
    simpa using this

lemma padNat_length (width n : Nat) (h : (natToStr n).length ≤ width) :
    (padNat width n).length = width := by
  simp only [padNat, List.length_append, List.length_replicate]
  omega

lemma padNat_digits (width n : Nat) : ∀ c ∈ padNat width n, isDigitChar c = true := by
  intro c hc
  simp only [padNat, List.mem_append] at hc
  rcases hc with h1 | h1
  · have := List.eq_of_mem_replicate h1
    subst this
    decide
  · exact natToStr_digits n c h1

lemma GoDate_format_length (d : GoDate) (hy : d.year ≤ 9999) (hm : d.month ≤ 99)
    (hd : d.day ≤ 99) : d.format.length = 8 := by
  simp only [GoDate.format, List.length_append]
  rw [padNat_length 4 d.year (natToStr_length_le _ 4 (by norm_num) (by omega)),
    padNat_length 2 d.month (natToStr_length_le _ 2 (by norm_num) (by omega)),
    padNat_length 2 d.day (natToStr_length_le _ 2 (by norm_num) (by omega))]

lemma GoDate_format_digits (d : GoDate) : ∀ c ∈ d.format, isDigitChar c = true := by
  intro c hc
  simp only [GoDate.format, List.mem_append] at hc
  rcases hc with (h1 | h1) | h1
  · exact padNat_digits 4 d.year c h1
  · exact padNat_digits 2 d.month c h1
  · exact padNat_digits 2 d.day c h1

lemma PutDomain_names (toUnicode toASCII : GoStr → Except GoStr GoStr) (domain : GoStr) :
    ∀ f ∈ PutDomainToQueryFields toUnicode toASCII [] domain,
      f.Name = QueryFieldNameDomainIDN ∨ f.Name = QueryFieldNameDomainACE := by
  intro f hf
  by_cases hpre : goStartsWith (goToLower domain) (gs "xn--") = true
  · cases hc : toUnicode domain with
    | ok idn =>
      simp only [PutDomainToQueryFields, hpre, hc, Add_eq_append, if_true,
        List.nil_append, List.map_cons, List.map_nil, List.cons_append, List.mem_cons,
        List.mem_singleton] at hf
      rcases hf with h1 | h1 | h1
      · right; rw [h1]
      · left; rw [h1]
      · simp at h1
    | error e =>
      simp only [PutDomainToQueryFields, hpre, hc, Add_eq_append, if_true,
        List.nil_append, List.map_cons, List.map_nil, List.mem_singleton] at hf
      subst hf
      right
      rfl
  · cases hc : toASCII domain with
    | ok ace =>
      simp only [PutDomainToQueryFields, hpre, hc, Add_eq_append, Bool.false_eq_true,
        if_false, List.nil_append, List.map_cons, List.map_nil, List.cons_append,
        List.mem_cons, List.mem_singleton] at hf
      rcases hf with h1 | h1 | h1
      · left; rw [h1]
      · right; rw [h1]
      · simp at h1
    | error e =>
      simp only [PutDomainToQueryFields, hpre, hc, Add_eq_append, Bool.false_eq_true,
        if_false, List.nil_append, List.map_cons, List.map_nil, List.mem_singleton] at hf
      subst hf
      left
      rfl


/-- C9 as stated is false: at a year-10000 expiry date the formatted expire
field has nine digits, not eight, because the year renders with all its
digits and the external time value does not bound the year. -/
theorem C9_authinfo1_counterexample :
    ((NewCreateAuthInfo1Query (fun s => Except.ok s) (fun s => Except.ok s)
        (fun _ => ([] : List (Fin 256))) (gs "example.de") (gs "s3cret")
        { year := 10000, month := 1, day := 1 }).FirstField
      QueryFieldNameAuthInfoExpire).length = 9 ∧
    ¬(((NewCreateAuthInfo1Query (fun s => Except.ok s) (fun s => Except.ok s)
        (fun _ => ([] : List (Fin 256))) (gs "example.de") (gs "s3cret")
        { year := 10000, month := 1, day := 1 }).FirstField
      QueryFieldNameAuthInfoExpire).length = 8) := by
  exact ⟨by decide, by decide⟩

/-- C9 (amended): the AuthInfo1 creation query carries, under the auth-info
hash name, exactly the lower-case hexadecimal rendering of the external
SHA-256 digest of the plaintext secret, and under the expiry name the date
in year-month-day digit form — exactly eight digits whenever the year is at
most 9999 (months and days always lie in their calendar ranges). -/
theorem C9_authinfo1_fields (toUnicode toASCII : GoStr → Except GoStr GoStr)
    (sha : GoStr → List (Fin 256)) (domain authInfo : GoStr) (d : GoDate) :
    (NewCreateAuthInfo1Query toUnicode toASCII sha domain authInfo d).FirstField
        QueryFieldNameAuthInfoHash = hexEncodeBytes (sha authInfo) ∧
    (hexEncodeBytes (sha authInfo)).length = 2 * (sha authInfo).length ∧
    (∀ c ∈ hexEncodeBytes (sha authInfo), isLowerHexChar c = true) ∧
    (NewCreateAuthInfo1Query toUnicode toASCII sha domain authInfo d).FirstField
        QueryFieldNameAuthInfoExpire = d.format ∧
    (∀ c ∈ d.format, isDigitChar c = true) ∧
    (d.year ≤ 9999 → 1 ≤ d.month → d.month ≤ 12 → 1 ≤ d.day → d.day ≤ 31 →
      d.format.length = 8) := by
  have hf : (NewCreateAuthInfo1Query toUnicode toASCII sha domain authInfo d).fields =
      { Name := QueryFieldNameVersion, Value := Version.Normalize LatestVersion } ::
        { Name := QueryFieldNameAction, Value := QueryAction.Normalize ActionCreateAuthInfo1 } ::
        ((PutDomainToQueryFields toUnicode toASCII [] domain ++
            [{ Name := QueryFieldNameAuthInfoHash, Value := computeHashSHA256 sha authInfo }]) ++
          [{ Name := QueryFieldNameAuthInfoExpire, Value := d.format }]) := by
    simp only [NewCreateAuthInfo1Query, NewQuery_fields, Option.getD_some, Add_eq_append,
      List.map_cons, List.map_nil, NewQueryFieldList]
  have hdom_hash : (PutDomainToQueryFields toUnicode toASCII [] domain).Values
      QueryFieldNameAuthInfoHash = [] := by
    refine Values_all_names _ _ ?_
    intro f hf2
    rcases PutDomain_names toUnicode toASCII domain f hf2 with h | h <;>
      (rw [h]; decide)
  have hdom_expire : (PutDomainToQueryFields toUnicode toASCII [] domain).Values
      QueryFieldNameAuthInfoExpire = [] := by
    refine Values_all_names _ _ ?_
    intro f hf2
    rcases PutDomain_names toUnicode toASCII domain f hf2 with h | h <;>
      (rw [h]; decide)
  have hvals_hash : (NewCreateAuthInfo1Query toUnicode toASCII sha domain
      authInfo d).fields.Values QueryFieldNameAuthInfoHash =
      [computeHashSHA256 sha authInfo] := by
    rw [hf,
      Values_cons_ne
        { Name := QueryFieldNameVersion, Value := Version.Normalize LatestVersion }
        _ QueryFieldNameAuthInfoHash
        (show QueryFieldNameVersion.Normalize ≠ QueryFieldNameAuthInfoHash.Normalize
          by decide),
      Values_cons_ne
        { Name := QueryFieldNameAction, Value := QueryAction.Normalize ActionCreateAuthInfo1 }
        _ QueryFieldNameAuthInfoHash
        (show QueryFieldNameAction.Normalize ≠ QueryFieldNameAuthInfoHash.Normalize
          by decide),
      Values_append, Values_append, hdom_hash,
      Values_cons_eq
        { Name := QueryFieldNameAuthInfoHash, Value := computeHashSHA256 sha authInfo }
        _ QueryFieldNameAuthInfoHash rfl,
      Values_cons_ne
        { Name := QueryFieldNameAuthInfoExpire, Value := d.format }
        _ QueryFieldNameAuthInfoHash
        (show QueryFieldNameAuthInfoExpire.Normalize ≠ QueryFieldNameAuthInfoHash.Normalize
          by decide)]
    rfl
  have hvals_expire : (NewCreateAuthInfo1Query toUnicode toASCII sha domain
      authInfo d).fields.Values QueryFieldNameAuthInfoExpire = [d.format] := by
    rw [hf,
      Values_cons_ne
        { Name := QueryFieldNameVersion, Value := Version.Normalize LatestVersion }
        _ QueryFieldNameAuthInfoExpire
        (show QueryFieldNameVersion.Normalize ≠ QueryFieldNameAuthInfoExpire.Normalize
          by decide),
      Values_cons_ne
        { Name := QueryFieldNameAction, Value := QueryAction.Normalize ActionCreateAuthInfo1 }
        _ QueryFieldNameAuthInfoExpire
        (show QueryFieldNameAction.Normalize ≠ QueryFieldNameAuthInfoExpire.Normalize
          by decide),
      Values_append, Values_append, hdom_expire,
      Values_cons_ne
        { Name := QueryFieldNameAuthInfoHash, Value := computeHashSHA256 sha authInfo }
        _ QueryFieldNameAuthInfoExpire
        (show QueryFieldNameAuthInfoHash.Normalize ≠ QueryFieldNameAuthInfoExpire.Normalize
          by decide),
      Values_cons_eq
        { Name := QueryFieldNameAuthInfoExpire, Value := d.format }
        _ QueryFieldNameAuthInfoExpire rfl]
    rfl
  refine ⟨?_, hexEncodeBytes_length _, hexEncodeBytes_chars _, ?_, GoDate_format_digits d,
    fun hy hm1 hm2 hd1 hd2 => GoDate_format_length d hy (by omega) (by omega)⟩
  · show QueryFieldList.FirstValue _ QueryFieldNameAuthInfoHash = _
    rw [QueryFieldList.FirstValue, hvals_hash]
    rfl
  · show QueryFieldList.FirstValue _ QueryFieldNameAuthInfoExpire = _
    rw [QueryFieldList.FirstValue, hvals_expire]

/-- Witness for C9 at a concrete digest function, domain, secret and date,
discharging the calendar hypotheses of the eight-digit part. -/
theorem C9_authinfo1_fields_witness :
    (NewCreateAuthInfo1Query (fun s => Except.ok s) (fun s => Except.ok s)
        (fun _ => [(171 : Fin 256), (1 : Fin 256)]) (gs "example.de") (gs "s3cret")
        { year := 2024, month := 6, day := 1 }).FirstField QueryFieldNameAuthInfoHash =
      gs "ab01" ∧
    (NewCreateAuthInfo1Query (fun s => Except.ok s) (fun s => Except.ok s)
        (fun _ => [(171 : Fin 256), (1 : Fin 256)]) (gs "example.de") (gs "s3cret")
        { year := 2024, month := 6, day := 1 }).FirstField QueryFieldNameAuthInfoExpire =
      gs "20240601" ∧
    (GoDate.format { year := 2024, month := 6, day := 1 }).length = 8 := by
  have h := C9_authinfo1_fields (fun s => Except.ok s) (fun s => Except.ok s)
    (fun _ => [(171 : Fin 256), (1 : Fin 256)]) (gs "example.de") (gs "s3cret")
    { year := 2024, month := 6, day := 1 }
  refine ⟨?_, ?_,
    h.2.2.2.2.2 (by decide) (by decide) (by decide) (by decide) (by decide)⟩
  · rw [h.1]
    decide
  · rw [h.2.2.2.1]
    decide

lemma parseQueryLines_cons (l : GoStr) (rest : List GoStr) (acc : QueryFieldList) :
    parseQueryLines (l :: rest) acc =
      (if (trimSpace l).length = 0 then parseQueryLines rest acc
      else
        match goSplitN ':' 2 (trimSpace l) with
        | [k, v] => parseQueryLines rest (acc.Add (trimSpace k) [trimSpace v])
        | _ => Except.error (gs "query line must be key-value separated by colon")) := rfl

lemma collectLines_cons (l : GoStr) (rest : List GoStr) :
    collectLines (l :: rest) =
      (if trimSpace l = [] then collectLines rest
      else
        match goSplitFirst ':' (trimSpace l) with
        | none => collectLines rest
        | some (k, v) =>
          { Name := trimSpace k, Value := trimSpace v } :: collectLines rest) := rfl

lemma parseQueryLines_ok (lines : List GoStr)
    (h : ∀ l ∈ lines, trimSpace l = [] ∨ ':' ∈ trimSpace l) :
    ∀ acc, parseQueryLines lines acc = Except.ok (acc ++ collectLines lines) := by
  induction lines with
  | nil => intro acc; simp [parseQueryLines, collectLines]
  | cons l rest ih =>
    intro acc
    have hrest : ∀ x ∈ rest, trimSpace x = [] ∨ ':' ∈ trimSpace x :=
      fun x hx => h x (List.mem_cons_of_mem l hx)
    rcases h l (by simp) with h1 | h1
    · rw [parseQueryLines_cons, collectLines_cons, h1, if_pos rfl]
      simp only [List.length_nil, if_pos rfl]
      exact ih hrest acc
    · have hne : trimSpace l ≠ [] := List.ne_nil_of_mem h1
      have hlen : ¬((trimSpace l).length = 0) := by
        intro h0
        exact hne (List.length_eq_zero.mp h0)
      obtain ⟨k, v, hkv⟩ := goSplitFirst_of_mem ':' _ h1
      rw [parseQueryLines_cons, collectLines_cons, if_neg hlen, if_neg hne,
        goSplitN_two_some ':' _ k v hkv, hkv]
      show parseQueryLines rest (acc.Add (trimSpace k) [trimSpace v]) = _
      rw [ih hrest]
      simp [Add_eq_append]

lemma parseQueryLines_err (lines : List GoStr)
    (h : ∃ l ∈ lines, trimSpace l ≠ [] ∧ ':' ∉ trimSpace l) :
    ∀ acc, ∃ e, parseQueryLines lines acc = Except.error e := by
  induction lines with
  | nil => simp at h
  | cons l rest ih =>
    intro acc
    by_cases h1 : trimSpace l = []
    · have hrest : ∃ x ∈ rest, trimSpace x ≠ [] ∧ ':' ∉ trimSpace x := by
        rcases h with ⟨x, hx, hbad⟩
        rcases List.mem_cons.mp hx with h2 | h2
        · exact absurd h1 (by rw [← h2]; exact hbad.1)
        · exact ⟨x, h2, hbad⟩
      rw [parseQueryLines_cons, h1]
      simp only [List.length_nil, if_pos rfl]
      exact ih hrest acc
    · have hlen : ¬((trimSpace l).length = 0) := by
        intro h0
        exact h1 (List.length_eq_zero.mp h0)
      by_cases h2 : ':' ∈ trimSpace l
      · have hrest : ∃ x ∈ rest, trimSpace x ≠ [] ∧ ':' ∉ trimSpace x := by
          rcases h with ⟨x, hx, hbad⟩
          rcases List.mem_cons.mp hx with h3 | h3
          · exact absurd (by rw [h3]; exact h2) hbad.2
          · exact ⟨x, h3, hbad⟩
        obtain ⟨k, v, hkv⟩ := goSplitFirst_of_mem ':' _ h2
        rw [parseQueryLines_cons, if_neg hlen, goSplitN_two_some ':' _ k v hkv]
        exact ih hrest _
      · rw [parseQueryLines_cons, if_neg hlen,
          goSplitN_two_none ':' _ (goSplitFirst_of_not_mem ':' _ h2)]
        exact ⟨_, rfl⟩

/-- C2: ParseQueryKV errors exactly when some non-blank line has no colon,
or the accumulated fields do not contain exactly one version value, or not
exactly one action value; on success the parsed fields are precisely the
accumulation described by the claim: each non-blank line split at its first
colon into a trimmed key and a trimmed value. -/
theorem C2_parse_error_iff (s : GoStr) :
    ((∃ e, ParseQueryKV s = Except.error e) ↔
      ((∃ l ∈ goSplitChar '\n' s, trimSpace l ≠ [] ∧ ':' ∉ l) ∨
        ((claimFields s).Values QueryFieldNameVersion).length ≠ 1 ∨
        ((claimFields s).Values QueryFieldNameAction).length ≠ 1)) ∧
    (∀ q, ParseQueryKV s = Except.ok q → q.fields = claimFields s) := by
  have hmem : ∀ l : GoStr,
      (trimSpace l ≠ [] ∧ ':' ∉ l) ↔ (trimSpace l ≠ [] ∧ ':' ∉ trimSpace l) := by
    intro l
    constructor
    · rintro ⟨ha, hb⟩
      exact ⟨ha, fun hc => hb ((mem_trimSpace_iff ':' l (by decide)).mp hc)⟩
    · rintro ⟨ha, hb⟩
      exact ⟨ha, fun hc => hb ((mem_trimSpace_iff ':' l (by decide)).mpr hc)⟩
  by_cases hbad : ∃ l ∈ goSplitChar '\n' s, trimSpace l ≠ [] ∧ ':' ∉ trimSpace l
  · obtain ⟨e, he⟩ := parseQueryLines_err _ hbad NewQueryFieldList
    have hp : ParseQueryKV s = Except.error e := by
      simp only [ParseQueryKV, he]
    refine ⟨⟨fun _ => ?_, fun _ => ⟨e, hp⟩⟩, fun q hq => ?_⟩
    · left
      obtain ⟨l, hl, hprop⟩ := hbad
      exact ⟨l, hl, (hmem l).mpr hprop⟩
    · rw [hp] at hq
      exact absurd hq (by simp)
  · have hgood : ∀ l ∈ goSplitChar '\n' s, trimSpace l = [] ∨ ':' ∈ trimSpace l := by
      intro l hl
      by_cases h1 : trimSpace l = []
      · exact Or.inl h1
      · by_cases h2 : ':' ∈ trimSpace l
        · exact Or.inr h2
        · exact absurd ⟨l, hl, h1, h2⟩ hbad
    have hpl : parseQueryLines (goSplitChar '\n' s) NewQueryFieldList =
        Except.ok (claimFields s) := by
      rw [parseQueryLines_ok _ hgood NewQueryFieldList]
      rfl
    have hnobad : ¬∃ l ∈ goSplitChar '\n' s, trimSpace l ≠ [] ∧ ':' ∉ l := by
      rintro ⟨l, hl, hprop⟩
      exact hbad ⟨l, hl, (hmem l).mp hprop⟩
    by_cases hv0 : ((claimFields s).Values QueryFieldNameVersion).length = 0
    · have hp : ParseQueryKV s = Except.error (gs "version key is missing") := by
        simp only [ParseQueryKV, hpl, hv0]
        rfl
      refine ⟨⟨fun _ => ?_, fun _ => ⟨_, hp⟩⟩, fun q hq => ?_⟩
      · right; left; omega
      · rw [hp] at hq
        exact absurd hq (by simp)
    · by_cases hv2 : 1 < ((claimFields s).Values QueryFieldNameVersion).length
      · have hp : ParseQueryKV s = Except.error (gs "multiple version values") := by
          simp only [ParseQueryKV, hpl, hv0, hv2, if_false, if_true, if_neg, if_pos]
        refine ⟨⟨fun _ => ?_, fun _ => ⟨_, hp⟩⟩, fun q hq => ?_⟩
        · right; left; omega
        · rw [hp] at hq
          exact absurd hq (by simp)
      · by_cases ha0 : ((claimFields s).Values QueryFieldNameAction).length = 0
        · have hp : ParseQueryKV s = Except.error (gs "action key is missing") := by
            simp only [ParseQueryKV, hpl, hv0, hv2, ha0, if_false, if_true]
          refine ⟨⟨fun _ => ?_, fun _ => ⟨_, hp⟩⟩, fun q hq => ?_⟩
          · right; right; omega
          · rw [hp] at hq
            exact absurd hq (by simp)
        · by_cases ha2 : 1 < ((claimFields s).Values QueryFieldNameAction).length
          · have hp : ParseQueryKV s = Except.error (gs "multiple action values") := by
              simp only [ParseQueryKV, hpl, hv0, hv2, ha0, ha2, if_false, if_true]
            refine ⟨⟨fun _ => ?_, fun _ => ⟨_, hp⟩⟩, fun q hq => ?_⟩
            · right; right; omega
            · rw [hp] at hq
              exact absurd hq (by simp)
          · have hp : ParseQueryKV s = Except.ok { fields := claimFields s } := by
              simp only [ParseQueryKV, hpl, hv0, hv2, ha0, ha2, if_false]
            refine ⟨⟨?_, ?_⟩, fun q hq => ?_⟩
            · rintro ⟨e, he⟩
              rw [hp] at he
              exact absurd he (by simp)
            · rintro (hc | hc | hc)
              · exact absurd hc hnobad
              · omega
              · omega
            · rw [hp] at hq
              have h2 := Except.ok.inj hq
              rw [← h2]

/-- Witness for C2: a concrete wire text parses to exactly the fields the
claim describes. -/
theorem C2_parse_error_iff_witness :
    ({ fields := [{ Name := gs "version", Value := gs "5.0" },
        { Name := gs "action", Value := gs "LOGIN" },
        { Name := gs "user", Value := gs "alice" }] } : Query).fields =
      claimFields (gs "version: 5.0\naction: LOGIN\nuser: alice") := by
  exact (C2_parse_error_iff (gs "version: 5.0\naction: LOGIN\nuser: alice")).2
    { fields := [{ Name := gs "version", Value := gs "5.0" },
        { Name := gs "action", Value := gs "LOGIN" },
        { Name := gs "user", Value := gs "alice" }] } (by decide)

lemma renderField_eq (f : QueryField) (h : cleanField f) :
    renderField f = f.Name ++ ':' :: ' ' :: f.Value := by
  simp only [renderField, if_neg h.1]

lemma renderField_ne_nil (f : QueryField) (h : cleanField f) : renderField f ≠ [] := by
  rw [renderField_eq f h]
  cases hn : f.Name with
  | nil => simp
  | cons c rest => simp

lemma renderField_no_newline (f : QueryField) (h : cleanField f) :
    '\n' ∉ renderField f := by
  rw [renderField_eq f h]
  intro hm
  rcases List.mem_append.mp hm with h1 | h1
  · exact h.2.2.1 h1
  · rcases List.mem_cons.mp h1 with h2 | h2
    · exact absurd h2 (by decide)
    · rcases List.mem_cons.mp h2 with h3 | h3
      · exact absurd h3 (by decide)
      · exact h.2.2.2.2.1 h3

lemma parseLine_render (f : QueryField) (h : cleanField f) :
    ∃ k v, ¬((trimSpace (renderField f)).length = 0) ∧
      goSplitN ':' 2 (trimSpace (renderField f)) = [k, v] ∧
      trimSpace k = f.Name ∧ trimSpace v = f.Value := by
  have hcol : ':' ∉ f.Name := h.2.1
  have hnts : trimSpace f.Name = f.Name := h.2.2.2.1
  have hvts : trimSpace f.Value = f.Value := h.2.2.2.2.2
  have hnl : trimLeft f.Name = f.Name := trimLeft_of_trimSpace _ hnts
  have hvl : trimLeft f.Value = f.Value := trimLeft_of_trimSpace _ hvts
  have hvr : trimRight f.Value = f.Value := trimRight_of_trimSpace _ hvts
  by_cases hve : f.Value = []
  · refine ⟨f.Name, [], ?_, ?_, hnts, by rw [hve]; decide⟩
    · rw [renderField_eq f h, hve]
      have hshape : f.Name ++ ':' :: ' ' :: ([] : GoStr) = f.Name ++ [':', ' '] := rfl
      rw [hshape]
      have ht : trimSpace (f.Name ++ [':', ' ']) = f.Name ++ [':'] := by
        show trimLeft (trimRight (f.Name ++ [':', ' '])) = f.Name ++ [':']
        rw [trimRight_append_colon_space, trimLeft_append_head f.Name [] ':' hnl (by decide)]
      rw [ht]
      simp
    · rw [renderField_eq f h, hve]
      have hshape : f.Name ++ ':' :: ' ' :: ([] : GoStr) = f.Name ++ [':', ' '] := rfl
      rw [hshape]
      have ht : trimSpace (f.Name ++ [':', ' ']) = f.Name ++ [':'] := by
        show trimLeft (trimRight (f.Name ++ [':', ' '])) = f.Name ++ [':']
        rw [trimRight_append_colon_space, trimLeft_append_head f.Name [] ':' hnl (by decide)]
      rw [ht]
      exact goSplitN_two_some ':' _ _ _ (goSplitFirst_append ':' f.Name [] hcol)
  · have ht : trimSpace (renderField f) = f.Name ++ ':' :: ' ' :: f.Value := by
      rw [renderField_eq f h]
      show trimLeft (trimRight (f.Name ++ ':' :: ' ' :: f.Value)) = _
      have hshape : f.Name ++ ':' :: ' ' :: f.Value = (f.Name ++ [':', ' ']) ++ f.Value := by
        simp
      rw [hshape, trimRight_append_last _ _ hvr hve, ← hshape,
        trimLeft_append_head f.Name (' ' :: f.Value) ':' hnl (by decide)]
    refine ⟨f.Name, ' ' :: f.Value, ?_, ?_, hnts, ?_⟩
    · rw [ht]
      cases hn : f.Name with
      | nil => simp
      | cons c rest => simp
    · rw [ht]
      exact goSplitN_two_some ':' _ _ _ (goSplitFirst_append ':' f.Name (' ' :: f.Value) hcol)
    · show trimLeft (trimRight (' ' :: f.Value)) = f.Value
      have hshape : (' ' :: f.Value) = [' '] ++ f.Value := rfl
      rw [hshape, trimRight_append_last _ _ hvr hve, ← hshape,
        trimLeft_cons_of_space ' ' f.Value (by decide), hvl]

lemma parseQueryLines_render (fs : QueryFieldList) (h : ∀ f ∈ fs, cleanField f) :
    ∀ acc, parseQueryLines (fs.map renderField) acc = Except.ok (acc ++ fs) := by
  induction fs with
  | nil => intro acc; simp [parseQueryLines]
  | cons f rest ih =>
    intro acc
    have hrest : ∀ g ∈ rest, cleanField g := fun g hg => h g (List.mem_cons_of_mem f hg)
    obtain ⟨k, v, hne, hsp, hk, hv⟩ := parseLine_render f (h f (by simp))
    rw [List.map_cons, parseQueryLines_cons, if_neg hne, hsp]
    show parseQueryLines (rest.map renderField) (acc.Add (trimSpace k) [trimSpace v]) = _
    rw [hk, hv, ih hrest]
    have heta : ({ Name := f.Name, Value := f.Value } : QueryField) = f := rfl
    simp [Add_eq_append, heta]

lemma encode_foldl (fs : QueryFieldList) :
    ∀ acc : GoStr, 0 < acc.length →
      List.foldl
        (fun a f => if 0 < a.length then a ++ '\n' :: renderField f else renderField f)
        acc fs = acc ++ joinTail (fs.map renderField) := by
  induction fs with
  | nil => intro acc _; simp [joinTail]
  | cons f rest ih =>
    intro acc hacc
    simp only [List.foldl_cons, if_pos hacc]
    have hlen : 0 < (acc ++ '\n' :: renderField f).length := by simp
    rw [ih _ hlen]
    simp [joinTail, List.append_assoc]

lemma encode_eq_joinNL (fs : QueryFieldList) (h : ∀ f ∈ fs, renderField f ≠ []) :
    Query.EncodeKV { fields := fs } = joinNL (fs.map renderField) := by
  cases fs with
  | nil => rfl
  | cons f rest =>
    show List.foldl _ [] (f :: rest) = _
    simp only [List.foldl_cons]
    rw [if_neg (by simp : ¬(0 < ([] : GoStr).length))]
    have hne : renderField f ≠ [] := h f (by simp)
    have hlen : 0 < (renderField f).length := by
      cases hr : renderField f with
      | nil => exact absurd hr hne
      | cons c cs => simp
    rw [encode_foldl rest _ hlen]
    rfl

lemma splitChar_joinTail (l : GoStr) (rest : List GoStr)
    (h : ∀ x ∈ l :: rest, '\n' ∉ x) :
    goSplitChar '\n' (l ++ joinTail rest) = l :: rest := by
  induction rest generalizing l with
  | nil =>
    simp only [joinTail, List.append_nil]
    exact goSplitChar_of_not_mem '\n' l (h l (by simp))
  | cons g rest2 ih =>
    show goSplitChar '\n' (l ++ '\n' :: (g ++ joinTail rest2)) = l :: g :: rest2
    rw [goSplitChar_append '\n' l _ (h l (by simp))]
    have h2 : ∀ x ∈ g :: rest2, '\n' ∉ x := by
      intro x hx
      exact h x (List.mem_cons_of_mem l hx)
    rw [ih g h2]

lemma splitChar_joinNL (ls : List GoStr) (h : ∀ x ∈ ls, '\n' ∉ x) (hne : ls ≠ []) :
    goSplitChar '\n' (joinNL ls) = ls := by
  cases ls with
  | nil => exact absurd rfl hne
  | cons l rest =>
    show goSplitChar '\n' (l ++ joinTail rest) = l :: rest
    exact splitChar_joinTail l rest h

/-- C1 (amended): for every query built through the core constructor that
all typed constructors funnel into, provided the resulting field entries are
clean — no entity markers and, for every entry, a colon-free newline-free
trim-stable name and a newline-free trim-stable value — and the supplied
list carries no version- or action-named entries, encoding to wire text and
parsing it back yields exactly the original query, so Version, Action and
every Field lookup agree. -/
theorem C1_roundtrip_amended (v : Version) (a : QueryAction) (fso : Option QueryFieldList)
    (hv : cleanField { Name := QueryFieldNameVersion, Value := Version.Normalize v })
    (ha : cleanField { Name := QueryFieldNameAction, Value := QueryAction.Normalize a })
    (hfs : ∀ f ∈ fso.getD [], cleanField f)
    (hnames : ∀ f ∈ fso.getD [],
      QueryFieldName.Normalize f.Name ≠ QueryFieldNameVersion ∧
      QueryFieldName.Normalize f.Name ≠ QueryFieldNameAction) :
    ParseQueryKV ((NewQuery v a fso).EncodeKV) = Except.ok (NewQuery v a fso) := by
  have hf := NewQuery_fields v a fso
  have hclean : ∀ f ∈ (NewQuery v a fso).fields, cleanField f := by
    rw [hf]
    intro f hfm
    rcases List.mem_cons.mp hfm with h1 | h1
    · rw [h1]; exact hv
    · rcases List.mem_cons.mp h1 with h2 | h2
      · rw [h2]; exact ha
      · exact hfs f h2
  have hrne : ∀ f ∈ (NewQuery v a fso).fields, renderField f ≠ [] :=
    fun f hfm => renderField_ne_nil f (hclean f hfm)
  have hnl : ∀ x ∈ (NewQuery v a fso).fields.map renderField, '\n' ∉ x := by
    intro x hx
    obtain ⟨f, hfm, hfx⟩ := List.mem_map.mp hx
    rw [← hfx]
    exact renderField_no_newline f (hclean f hfm)
  have hlne : (NewQuery v a fso).fields.map renderField ≠ [] := by
    rw [hf]
    simp
  have henc : (NewQuery v a fso).EncodeKV =
      joinNL ((NewQuery v a fso).fields.map renderField) := by
    show Query.EncodeKV { fields := (NewQuery v a fso).fields } = _
    exact encode_eq_joinNL _ hrne
  have hsplit : goSplitChar '\n' ((NewQuery v a fso).EncodeKV) =
      (NewQuery v a fso).fields.map renderField := by
    rw [henc]
    exact splitChar_joinNL _ hnl hlne
  have hpl : parseQueryLines (goSplitChar '\n' ((NewQuery v a fso).EncodeKV))
      NewQueryFieldList = Except.ok ((NewQuery v a fso).fields) := by
    rw [hsplit, parseQueryLines_render _ hclean NewQueryFieldList]
    rfl
  have hV := NewQuery_values_version v a fso (fun f hm => (hnames f hm).1)
  have hA := NewQuery_values_action v a fso (fun f hm => (hnames f hm).2)
  simp only [ParseQueryKV, hpl, hV, hA, List.length_singleton]
  rfl

/-- Witness for C1 at a concrete login-shaped query with clean values. -/
theorem C1_roundtrip_amended_witness :
    ParseQueryKV ((NewQuery (gs "5.0") (gs "LOGIN")
        (some [{ Name := gs "user", Value := gs "alice" },
          { Name := gs "password", Value := gs "secret" }])).EncodeKV) =
      Except.ok (NewQuery (gs "5.0") (gs "LOGIN")
        (some [{ Name := gs "user", Value := gs "alice" },
          { Name := gs "password", Value := gs "secret" }])) :=
  C1_roundtrip_amended (gs "5.0") (gs "LOGIN")
    (some [{ Name := gs "user", Value := gs "alice" },
      { Name := gs "password", Value := gs "secret" }])
    (by decide) (by decide) (by decide) (by decide)

/-- C1 as stated is false: the round trip is claimed for all string
arguments, but a password containing a newline makes the re-parse fail
outright, and a password with a leading space changes the password lookup
after the round trip. -/
theorem C1_roundtrip_counterexample :
    ParseQueryKV ((NewLoginQuery (gs "alice") (gs "a\nb")).EncodeKV) =
      Except.error (gs "query line must be key-value separated by colon") ∧
    (match ParseQueryKV ((NewLoginQuery (gs "alice") (gs " x")).EncodeKV) with
      | Except.ok q => q.Field QueryFieldNamePassword
      | Except.error _ => []) ≠
      (NewLoginQuery (gs "alice") (gs " x")).Field QueryFieldNamePassword := by
  exact ⟨by decide, by decide⟩
